import Mathlib

/-!
Verification development for the datx entity-graph library.

The definitions below are a shallow embedding of the TypeScript sources:
JavaScript values are modelled by the inductive `Val`, models/collections by
structures, fallible operations by `Except String`, and helper functions are
translated clause-by-clause from the corresponding TypeScript functions
(`isModelReference`, `getModelRef`, `modelToJSON`, `cloneModel`,
`assignModel`, `updateModel`, `getRefValue`, `buildUrl`, `sortUrlParams`).
Pieces of the library that are not part of the given sources (the
collection's `add`, the cache store, some named constants) are modelled from
the specification and marked as such in their doc comments.
-/

namespace Datx

/-- A JavaScript value as far as the library observes it: null/undefined,
scalars, plain objects (ordered association lists, as JS objects preserve
insertion order) and arrays. -/
inductive Val where
  | vnull : Val
  | vstr (s : String) : Val
  | vint (n : Int) : Val
  | vbool (b : Bool) : Val
  | vobj (fields : List (String × Val)) : Val
  | varr (items : List Val) : Val

mutual

def valDecEq : (a b : Val) → Decidable (a = b)
  | Val.vnull, Val.vnull => isTrue rfl
  | Val.vstr a, Val.vstr b =>
    match String.decEq a b with
    | isTrue h => isTrue (by rw [h])
    | isFalse h => isFalse (fun hh => by cases hh; exact h rfl)
  | Val.vint a, Val.vint b =>
    match decEq a b with
    | isTrue h => isTrue (by rw [h])
    | isFalse h => isFalse (fun hh => by cases hh; exact h rfl)
  | Val.vbool a, Val.vbool b =>
    match decEq a b with
    | isTrue h => isTrue (by rw [h])
    | isFalse h => isFalse (fun hh => by cases hh; exact h rfl)
  | Val.vobj a, Val.vobj b =>
    match valFieldsDecEq a b with
    | isTrue h => isTrue (by rw [h])
    | isFalse h => isFalse (fun hh => by cases hh; exact h rfl)
  | Val.varr a, Val.varr b =>
    match valListDecEq a b with
    | isTrue h => isTrue (by rw [h])
    | isFalse h => isFalse (fun hh => by cases hh; exact h rfl)
  | Val.vnull, Val.vstr _ => isFalse (fun h => Val.noConfusion h)
  | Val.vnull, Val.vint _ => isFalse (fun h => Val.noConfusion h)
  | Val.vnull, Val.vbool _ => isFalse (fun h => Val.noConfusion h)
  | Val.vnull, Val.vobj _ => isFalse (fun h => Val.noConfusion h)
  | Val.vnull, Val.varr _ => isFalse (fun h => Val.noConfusion h)
  | Val.vstr _, Val.vnull => isFalse (fun h => Val.noConfusion h)
  | Val.vstr _, Val.vint _ => isFalse (fun h => Val.noConfusion h)
  | Val.vstr _, Val.vbool _ => isFalse (fun h => Val.noConfusion h)
  | Val.vstr _, Val.vobj _ => isFalse (fun h => Val.noConfusion h)
  | Val.vstr _, Val.varr _ => isFalse (fun h => Val.noConfusion h)
  | Val.vint _, Val.vnull => isFalse (fun h => Val.noConfusion h)
  | Val.vint _, Val.vstr _ => isFalse (fun h => Val.noConfusion h)
  | Val.vint _, Val.vbool _ => isFalse (fun h => Val.noConfusion h)
  | Val.vint _, Val.vobj _ => isFalse (fun h => Val.noConfusion h)
  | Val.vint _, Val.varr _ => isFalse (fun h => Val.noConfusion h)
  | Val.vbool _, Val.vnull => isFalse (fun h => Val.noConfusion h)
  | Val.vbool _, Val.vstr _ => isFalse (fun h => Val.noConfusion h)
  | Val.vbool _, Val.vint _ => isFalse (fun h => Val.noConfusion h)
  | Val.vbool _, Val.vobj _ => isFalse (fun h => Val.noConfusion h)
  | Val.vbool _, Val.varr _ => isFalse (fun h => Val.noConfusion h)
  | Val.vobj _, Val.vnull => isFalse (fun h => Val.noConfusion h)
  | Val.vobj _, Val.vstr _ => isFalse (fun h => Val.noConfusion h)
  | Val.vobj _, Val.vint _ => isFalse (fun h => Val.noConfusion h)
  | Val.vobj _, Val.vbool _ => isFalse (fun h => Val.noConfusion h)
  | Val.vobj _, Val.varr _ => isFalse (fun h => Val.noConfusion h)
  | Val.varr _, Val.vnull => isFalse (fun h => Val.noConfusion h)
  | Val.varr _, Val.vstr _ => isFalse (fun h => Val.noConfusion h)
  | Val.varr _, Val.vint _ => isFalse (fun h => Val.noConfusion h)
  | Val.varr _, Val.vbool _ => isFalse (fun h => Val.noConfusion h)
  | Val.varr _, Val.vobj _ => isFalse (fun h => Val.noConfusion h)

def valFieldsDecEq : (a b : List (String × Val)) → Decidable (a = b)
  | [], [] => isTrue rfl
  | [], _ :: _ => isFalse (fun h => List.noConfusion h)
  | _ :: _, [] => isFalse (fun h => List.noConfusion h)
  | (k, v) :: r, (k2, v2) :: r2 =>
    match String.decEq k k2, valDecEq v v2, valFieldsDecEq r r2 with
    | isTrue h1, isTrue h2, isTrue h3 => isTrue (by rw [h1, h2, h3])
    | isFalse h1, _, _ => isFalse (fun hh => by cases hh; exact h1 rfl)
    | _, isFalse h2, _ => isFalse (fun hh => by cases hh; exact h2 rfl)
    | _, _, isFalse h3 => isFalse (fun hh => by cases hh; exact h3 rfl)

def valListDecEq : (a b : List Val) → Decidable (a = b)
  | [], [] => isTrue rfl
  | [], _ :: _ => isFalse (fun h => List.noConfusion h)
  | _ :: _, [] => isFalse (fun h => List.noConfusion h)
  | v :: r, v2 :: r2 =>
    match valDecEq v v2, valListDecEq r r2 with
    | isTrue h2, isTrue h3 => isTrue (by rw [h2, h3])
    | isFalse h2, _ => isFalse (fun hh => by cases hh; exact h2 rfl)
    | _, isFalse h3 => isFalse (fun hh => by cases hh; exact h3 rfl)

end

instance : DecidableEq Val := valDecEq

/-- Association-list lookup: the value of the first entry with the given
key, mirroring JS property access (keys are unique in real JS objects). -/
def alistFind {α : Type} (l : List (String × α)) (k : String) : Option α :=
  (l.find? (fun kv => kv.1 == k)).map (fun kv => kv.2)

/-- Association-list update: replace the first entry with the given key in
place, or append a new entry (JS assignment keeps insertion order). -/
def alistSet {α : Type} : List (String × α) → String → α → List (String × α)
  | [], k, v => [(k, v)]
  | (k', v') :: rest, k, v =>
    if k' = k then (k, v) :: rest else (k', v') :: alistSet rest k v

/-- Association-list delete, mirroring the JS `delete` operator. -/
def alistErase {α : Type} (l : List (String × α)) (k : String) : List (String × α) :=
  l.filter (fun kv => kv.1 != k)

mutual

/-- `isModelReference` from helpers/model/utils: array-like values are
checked element-wise; otherwise the value must be a non-null object with a
`type` key, an `id` key, and exactly two keys. -/
def isModelReference : Val → Bool
  | Val.varr items => isModelReferenceList items
  | Val.vobj fields =>
    fields.any (fun kv => kv.1 == "type") &&
    fields.any (fun kv => kv.1 == "id") &&
    fields.length == 2
  | _ => false

def isModelReferenceList : List Val → Bool
  | [] => true
  | v :: vs => isModelReference v && isModelReferenceList vs

end

mutual

/-- Well-formedness of a `Val` as the image of a real JS value: object key
lists have no duplicate keys (a JS object cannot hold a key twice). -/
def valWF : Val → Bool
  | Val.vobj fields => decide (fields.map Prod.fst).Nodup && fieldsWF fields
  | Val.varr items => itemsWF items
  | _ => true

def fieldsWF : List (String × Val) → Bool
  | [] => true
  | (_, v) :: rest => valWF v && fieldsWF rest

def itemsWF : List Val → Bool
  | [] => true
  | v :: vs => valWF v && itemsWF vs

end

/-- The characterization of a model reference as the specification words it:
a non-null object whose key set is exactly (type, id), or an array-like
value every element of which satisfies the predicate. -/
inductive IsModelRefSpec : Val → Prop where
  | obj (fields : List (String × Val))
      (htype : "type" ∈ fields.map Prod.fst)
      (hid : "id" ∈ fields.map Prod.fst)
      (honly : ∀ k ∈ fields.map Prod.fst, k = "type" ∨ k = "id") :
      IsModelRefSpec (Val.vobj fields)
  | arr (items : List Val) (h : ∀ v ∈ items, IsModelRefSpec v) :
      IsModelRefSpec (Val.varr items)

/-- A PureModel instance as far as the identity helpers observe it: the
meta-stored id and type (absent = undefined) and the static type of its
constructor. -/
structure PModel where
  metaId : Option Val
  metaType : Option Val
  ctorType : Val
deriving DecidableEq

/-- A value that is either a PureModel instance or any other JS value: the
`instanceof PureModel` test in the source distinguishes exactly these. -/
inductive JsVal where
  | pm (m : PModel)
  | raw (v : Val)
deriving DecidableEq

/-- JS truthiness of a value, used for the `||` fallbacks in the source. -/
def valTruthy : Val → Bool
  | Val.vnull => false
  | Val.vstr s => !(s == "")
  | Val.vint n => !(n == 0)
  | Val.vbool b => b
  | Val.vobj _ => true
  | Val.varr _ => true

/-- `getModelType` from helpers/model/utils (the `typeof model === 'function'`
branch for model classes is not needed by the claims and is not modelled):
a model reference yields its `type` member, a model instance yields the
meta-stored type with the constructor's static type as `||` fallback, other
objects yield undefined (`Val.vnull`), and a scalar is already a type tag. -/
def getModelType (model : JsVal) : Val :=
  match model with
  | JsVal.pm m =>
    match m.metaType with
    | some t => if valTruthy t then t else m.ctorType
    | none => m.ctorType
  | JsVal.raw v =>
    if isModelReference v then
      match v with
      | Val.vobj fields => (alistFind fields "type").getD Val.vnull
      | _ => Val.vnull
    else
      match v with
      | Val.vobj _ => Val.vnull
      | Val.varr _ => Val.vnull
      | _ => v

/-- `getModelId` from helpers/model/utils: a model instance yields its
meta-stored id and throws "Model without an ID" when none is stored; any
other value is returned as the identifier itself. -/
def getModelId (model : JsVal) : Except String Val :=
  match model with
  | JsVal.pm m =>
    match m.metaId with
    | some i => Except.ok i
    | none => Except.error "Model without an ID"
  | JsVal.raw v => Except.ok v

/-- `getModelRef` from helpers/model/utils: a model instance is turned into
the plain reference object with keys id and type; anything else is returned
unchanged. -/
def getModelRef (model : JsVal) : Except String JsVal :=
  match model with
  | JsVal.pm m =>
    (getModelId (JsVal.pm m)).map
      (fun i => JsVal.raw (Val.vobj [("id", i), ("type", getModelType (JsVal.pm m))]))
  | JsVal.raw v => Except.ok (JsVal.raw v)

/-- `MODEL_EXISTS` from errors.ts. -/
def MODEL_EXISTS : String := "Model already exists, please update it instead."

/-- `NO_REFS` from errors.ts. -/
def NO_REFS : String := "You should save this value as a reference."

/-- `DEFAULT_ID_FIELD` (consts.ts is not under src/; modelled from the
spec's snapshot layout, which uses a plain `id` member). -/
def DEFAULT_ID_FIELD : String := "id"

/-- `DEFAULT_TYPE_FIELD` (consts.ts is not under src/; modelled from the
spec's snapshot layout, which uses a plain `type` member). -/
def DEFAULT_TYPE_FIELD : String := "type"

/-- The raw-snapshot meta key (`META_FIELD` from datx-utils, not under
src/; its exact text is irrelevant to the claims). -/
def META_FIELD : String := "__META__"

/-- `MetaModelField.IdField` (the enum is not under src/; the spec's
snapshot layout names the meta members id, type, originalId). -/
def metaIdKey : String := "id"

/-- `MetaModelField.TypeField`, see `metaIdKey`. -/
def metaTypeKey : String := "type"

/-- `MetaModelField.Collection`, see `metaIdKey`. -/
def metaCollectionKey : String := "collection"

/-- `MetaModelField.OriginalId`, see `metaIdKey`. -/
def metaOriginalIdKey : String := "originalId"

/-- `MetaModelField.Fields`, see `metaIdKey`. -/
def metaFieldsKey : String := "fields"

/-- One registered entity: its type tag, identifier, clone back-pointer and
its serialized field values in declaration order (reference fields store
their bucket snapshot, which is what `modelToJSON` reads). -/
structure Entity where
  etype : Val
  eid : Val
  eoriginalId : Option Val
  efields : List (String × Val)
deriving DecidableEq

/-- The identity registry: the ordered list of registered entities. -/
structure Collection where
  models : List Entity
deriving DecidableEq

/-- Registry lookup by (type, id), as used by reference resolution. -/
def findOne (c : Collection) (t i : Val) : Option Entity :=
  c.models.find? (fun e => e.etype == t && e.eid == i)

/-- The nullish test of `peekNonNullish` (datx-utils): absent (undefined)
and null are both nullish; everything else is kept. -/
def nonNullish : Option Val → Option Val
  | some Val.vnull => none
  | some (Val.vstr s) => some (Val.vstr s)
  | some (Val.vint n) => some (Val.vint n)
  | some (Val.vbool b) => some (Val.vbool b)
  | some (Val.vobj fs) => some (Val.vobj fs)
  | some (Val.varr xs) => some (Val.varr xs)
  | none => none

/-- The meta object stored in a raw snapshot under `META_FIELD`. -/
def rawMeta (raw : List (String × Val)) : List (String × Val) :=
  match alistFind raw META_FIELD with
  | some (Val.vobj ms) => ms
  | _ => []

/-- The integer magnitude of an entity id (0 for non-integer ids), used to
generate a fresh auto id. -/
def idNat (e : Entity) : Nat :=
  match e.eid with
  | Val.vint n => n.natAbs
  | _ => 0

/-- The largest integer-id magnitude currently registered. -/
def maxIdNat (c : Collection) : Nat :=
  c.models.foldr (fun e acc => max (idNat e) acc) 0

/-- A generated auto id.  `getAutoId` is not under src/; modelled from the
spec ("locally generated negative/sentinel identifier"), made fresh with
respect to the registry. -/
def freshAutoId (c : Collection) : Val :=
  Val.vint (-(1 + (maxIdNat c : Int)))

/-- The identifier a newly constructed model receives (`initModel`, init.ts
lines 241-247): the raw data's id member, else the raw meta's id, else a
generated auto id. -/
def computeRawId (c : Collection) (raw : List (String × Val)) : Val :=
  match nonNullish (alistFind raw DEFAULT_ID_FIELD) with
  | some v => v
  | none =>
    match nonNullish (alistFind (rawMeta raw) metaIdKey) with
    | some v => v
    | none => freshAutoId c

/-- The type tag a newly constructed model receives (`initModel`, init.ts
lines 228-239): the raw data's type member, else the raw meta's type, else
the type the model was added under. -/
def computeRawType (raw : List (String × Val)) (t : Val) : Val :=
  match nonNullish (alistFind raw DEFAULT_TYPE_FIELD) with
  | some v => v
  | none =>
    match nonNullish (alistFind (rawMeta raw) metaTypeKey) with
    | some v => v
    | none => t

/-- `PureCollection.add(rawData, type)`.  The collection class is not under
src/: modelled from the spec (4.1) - if a prior entity with the same
(type, id) is registered the call fails with `MODEL_EXISTS` and nothing
changes; otherwise a new entity is constructed (id/type/originalId resolved
as in `initModel`, which is under src/) and appended to the registry. -/
def addModel (c : Collection) (raw : List (String × Val)) (t : Val) :
    Except String (Collection × Entity) :=
  let i := computeRawId c raw
  let tEff := computeRawType raw t
  match findOne c tEff i with
  | some _ => Except.error MODEL_EXISTS
  | none =>
    let e : Entity :=
      { etype := tEff
        eid := i
        eoriginalId := nonNullish (alistFind (rawMeta raw) metaOriginalIdKey)
        efields := raw.filter (fun kv => kv.1 != META_FIELD) }
    Except.ok ({ models := c.models ++ [e] }, e)

/-- `modelToJSON` (utils.ts lines 133-160): a raw snapshot holding the meta
object (internal meta such as originalId and the patch machinery dropped,
id/type forced in, collection cleared - undefined is modelled as null) and
every field's serialized value. -/
def modelToJSON (e : Entity) : List (String × Val) :=
  (META_FIELD,
    Val.vobj [(metaIdKey, e.eid), (metaTypeKey, e.etype), (metaCollectionKey, Val.vnull)]) ::
    e.efields

/-- The non-meta members of a raw snapshot. -/
def nonMetaFields (raw : List (String × Val)) : List (String × Val) :=
  raw.filter (fun kv => kv.1 != META_FIELD)

/-- A model constructed with `new TypeModel(rawData)` and no collection
(`initModel` with an undefined collection); the class-level auto id counter
is modelled as the sentinel -1 (there is no registry to collide with). -/
def detachedModel (raw : List (String × Val)) (t : Val) : Entity :=
  { etype := computeRawType raw t
    eid :=
      match nonNullish (alistFind raw DEFAULT_ID_FIELD) with
      | some v => v
      | none =>
        match nonNullish (alistFind (rawMeta raw) metaIdKey) with
        | some v => v
        | none => Val.vint (-1)
    eoriginalId := nonNullish (alistFind (rawMeta raw) metaOriginalIdKey)
    efields := raw.filter (fun kv => kv.1 != META_FIELD) }

/-- The outcome of `cloneModel`: whether the not-in-collection warning was
issued, and the thrown-or-returned result (new registry state if any, and
the constructed clone). -/
structure CloneResult where
  warned : Bool
  outcome : Except String (Option Collection × Entity)

/-- `cloneModel` (utils.ts lines 162-181): take the raw snapshot, copy the
meta id into originalId, delete the meta id, and re-add the raw data to the
model's collection under the model's type.  Without a collection nothing
fails: the function warns that referencing the original will not be
possible and constructs a detached model from the raw data. -/
def cloneModel (c : Option Collection) (e : Entity) : CloneResult :=
  let raw := modelToJSON e
  let ms := rawMeta raw
  let ms1 := alistSet ms metaOriginalIdKey ((alistFind ms metaIdKey).getD Val.vnull)
  let ms2 := alistErase ms1 metaIdKey
  let raw2 := alistSet raw META_FIELD (Val.vobj ms2)
  match c with
  | some col =>
    { warned := false
      outcome := (addModel col raw2 e.etype).map (fun p => (some p.1, p.2)) }
  | none =>
    { warned := true
      outcome := Except.ok (none, detachedModel raw2 e.etype) }

/-- Whether an `Except` result is a success, i.e. the call did not throw. -/
def exceptIsOk {ε α : Type} : Except ε α → Bool
  | Except.ok _ => true
  | Except.error _ => false

/-- The target-type rule of a reference field definition (`getModelRefType`,
init.ts lines 38-50): a static type, or a computed rule.  The source passes
the raw item, parent model, field key and collection to a computed rule;
the claims only inspect the raw item, so the rule is modelled as a function
of it. -/
inductive RefModelDef where
  | statict (t : Val)
  | dynt (f : Val → Val)

/-- `getModelRefType`: resolve the field's declared or computed target type
for a raw item. -/
def getModelRefType (m : RefModelDef) (data : Val) : Val :=
  match m with
  | RefModelDef.statict t => t
  | RefModelDef.dynt f => f data

/-- A resolved reference item: null, a live entity, or a plain placeholder
reference value. -/
inductive RefResolved where
  | rnull
  | rentity (e : Entity)
  | rplaceholder (v : Val)

/-- A resolved reference value: a single item or an item-wise mapped list. -/
inductive RefValue where
  | one (r : RefResolved)
  | many (rs : List RefResolved)

/-- `typeof item === 'object'` for a non-null value. -/
def isObjVal : Val → Bool
  | Val.vobj _ => true
  | Val.varr _ => true
  | _ => false

/-- The member list of an object value (empty for non-objects). -/
def valObjFields : Val → List (String × Val)
  | Val.vobj fs => fs
  | _ => []

/-- JS member access `v[k]` (undefined, modelled as null, when absent or
when `v` is not an object). -/
def valMember (v : Val) (k : String) : Val :=
  match v with
  | Val.vobj fs => (alistFind fs k).getD Val.vnull
  | _ => Val.vnull

/-- One item of `getRefValue` (init.ts lines 53-87), in the source's test
order: null/undefined resolves to null; an object that is not a (type, id)
placeholder is added to the collection under the field's computed target
type (null without a collection); a placeholder object is looked up by its
own type/id members and kept unchanged when not found; a bare identifier is
looked up under the computed target type and otherwise becomes a
synthesized placeholder with members id and type. -/
def getRefValueItem (c : Option Collection) (fd : RefModelDef) (item : Val) :
    Except String (Option Collection × RefResolved) :=
  if item = Val.vnull then Except.ok (c, RefResolved.rnull)
  else if isObjVal item && !isModelReference item then
    match c with
    | some col =>
      (addModel col (valObjFields item) (getModelRefType fd item)).map
        (fun p => (some p.1, RefResolved.rentity p.2))
    | none => Except.ok (none, RefResolved.rnull)
  else if isObjVal item then
    match c with
    | some col =>
      match findOne col (valMember item "type") (valMember item "id") with
      | some e => Except.ok (some col, RefResolved.rentity e)
      | none => Except.ok (some col, RefResolved.rplaceholder item)
    | none => Except.ok (none, RefResolved.rplaceholder item)
  else
    match c with
    | some col =>
      match findOne col (getModelRefType fd item) item with
      | some e => Except.ok (some col, RefResolved.rentity e)
      | none =>
        Except.ok (some col,
          RefResolved.rplaceholder (Val.vobj [("id", item), ("type", getModelRefType fd item)]))
    | none =>
      Except.ok (none,
        RefResolved.rplaceholder (Val.vobj [("id", item), ("type", getModelRefType fd item)]))

/-- An item that takes the inline-object branch of `getRefValueItem` (and
so may add to the registry). -/
def isInlineItem (item : Val) : Bool :=
  isObjVal item && !isModelReference item

/-- `mapItems` over a list of reference items, threading the registry. -/
def getRefValueList (c : Option Collection) (fd : RefModelDef) :
    List Val → Except String (Option Collection × List RefResolved)
  | [] => Except.ok (c, [])
  | item :: rest =>
    match getRefValueItem c fd item with
    | Except.error msg => Except.error msg
    | Except.ok (c2, r) =>
      match getRefValueList c2 fd rest with
      | Except.error msg => Except.error msg
      | Except.ok (c3, rs) => Except.ok (c3, r :: rs)

/-- `getRefValue` (init.ts lines 53-87): `mapItems` applies the item
resolver element-wise over arrays and directly otherwise. -/
def getRefValue (c : Option Collection) (fd : RefModelDef) (value : Val) :
    Except String (Option Collection × RefValue) :=
  match value with
  | Val.varr items =>
    (getRefValueList c fd items).map (fun p => (p.1, RefValue.many p.2))
  | v =>
    (getRefValueItem c fd v).map (fun p => (p.1, RefValue.one p.2))

/-- A value as the assignment path sees it: a PureModel instance (carrying
its model type), any other raw value, or an array of such values. -/
inductive AVal where
  | pm (t : Val)
  | raw (v : Val)
  | arr (items : List AVal)

/-- The `ReferenceType` enum. -/
inductive RKind where
  | toOne
  | toMany
  | toOneOrMany
deriving DecidableEq

/-- The payload of a reference field definition as the auto-upgrade path
writes it: a reference kind and the model types derived from the value. -/
structure RefDefData where
  rkind : RKind
  rmodels : List Val
deriving DecidableEq

/-- A field definition entry: `referenceDef: false` or a reference. -/
inductive RefDefField where
  | noRef
  | refDef (rd : RefDefData)
deriving DecidableEq

/-- The entity-shape test of `assignModel`:
`(isArrayLike(value) && value[0] instanceof PureModel) || value instanceof
PureModel`. -/
def shouldBeReference : AVal → Bool
  | AVal.pm _ => true
  | AVal.arr (AVal.pm _ :: _) => true
  | _ => false

/-- `getModelType` applied to an assignment value. -/
def getModelTypeA : AVal → Val
  | AVal.pm t => t
  | AVal.raw v => getModelType (JsVal.raw v)
  | AVal.arr _ => Val.vnull

/-- `mapItems(value, getModelType)`: element-wise over arrays. -/
def mapItemsTypes : AVal → List Val
  | AVal.arr items => items.map getModelTypeA
  | v => [getModelTypeA v]

/-- First-occurrence deduplication, as `Array.from(new Set(...))`. -/
def dedupFirstAux (seen : List Val) : List Val → List Val
  | [] => []
  | x :: xs =>
    if x ∈ seen then dedupFirstAux seen xs else x :: dedupFirstAux (x :: seen) xs

/-- See `dedupFirstAux`. -/
def dedupFirst (l : List Val) : List Val := dedupFirstAux [] l

/-- The model types an auto-upgraded reference field records:
`Array.from(new Set(mapItems(value, getModelType)))`. -/
def derivedRefTypes (v : AVal) : List Val := dedupFirst (mapItemsTypes v)

/-- Observable events of the mutation path: the action batch markers and
the per-key writes. -/
inductive MEvent where
  | startEv
  | endEv
  | assignEv (key : String)
  | setMetaEv (key : String)
deriving DecidableEq

/-- A model as the assignment/update path sees it: identifier and type tag
(the stores behind the id/type meta), the class-configured id/type field
names, the field definition table, the stored field values, and the
remaining meta. -/
structure MModel where
  idVal : Val
  typeVal : Val
  idFieldName : String
  typeFieldName : String
  mfields : List (String × RefDefField)
  mvalues : List (String × AVal)
  mmeta : List (String × Val)

/-- `READ_ONLY_META` (part_000 lines 197-201): fields, id, type. -/
def READ_ONLY_META : List String := [metaFieldsKey, metaIdKey, metaTypeKey]

/-- The computed type-field setter's error (init.ts line 174). -/
def TYPE_READONLY : String := "Model type can\x27t be changed after initialization."

/-- The computed id-field setter's error (init.ts lines 183-185). -/
def ID_READONLY : String :=
  "Model ID can\x27t be updated directly. Use the `updateModelId` helper function instead."

/-- `setMeta(model, key, value)` restricted to what the claims observe: the
id and type meta keys are the stores behind the model's identifier and type
tag; every other key lands in the model's remaining meta. -/
def setMetaM (m : MModel) (k : String) (v : Val) : MModel :=
  if k = metaIdKey then { m with idVal := v }
  else if k = metaTypeKey then { m with typeVal := v }
  else { m with mmeta := alistSet m.mmeta k v }

/-- `omitKeys` (part_000 lines 203-213). -/
def omitKeys (l : List (String × Val)) (keys : List String) : List (String × Val) :=
  l.filter (fun kv => decide (kv.1 ∉ keys))

/-- `mergeMeta` (datx-utils; not under src/): a shallow key-by-key merge
through `setMetaM`, recording one event per merged key.  The META_FIELD
loop body of `updateModel` performs exactly the same per-key `setMeta`
calls, so both paths share this definition. -/
def mergeMetaM (m : MModel) : List (String × Val) → MModel × List MEvent
  | [] => (m, [])
  | (k, v) :: rest =>
    let r := mergeMetaM (setMetaM m k v) rest
    (r.1, MEvent.setMetaEv k :: r.2)

/-- `assignModel` (part_000 lines 215-251).  For a declared field: an
entity-shaped value on a non-reference definition throws `NO_REFS`,
otherwise `model[key] = value` runs the field's setter (the computed
type/id setters throw).  For an unknown key: the field table gains a
to-one-or-many reference definition when the value is entity-shaped (a
plain definition otherwise) and `initModelField` runs, which stores the
value except for the computed type/id field names. -/
def assignModel (m : MModel) (key : String) (v : AVal) :
    Except String (MModel × List MEvent) :=
  match alistFind m.mfields key with
  | some fd =>
    if shouldBeReference v && decide (fd = RefDefField.noRef) then
      Except.error NO_REFS
    else if key = m.typeFieldName then
      Except.error TYPE_READONLY
    else if key = m.idFieldName then
      Except.error ID_READONLY
    else
      Except.ok ({ m with mvalues := alistSet m.mvalues key v }, [MEvent.assignEv key])
  | none =>
    let fd := if shouldBeReference v then
        RefDefField.refDef { rkind := RKind.toOneOrMany, rmodels := derivedRefTypes v }
      else RefDefField.noRef
    let m2 := { m with mfields := m.mfields ++ [(key, fd)] }
    if key = m2.typeFieldName ∨ key = m2.idFieldName then
      Except.ok (m2, [MEvent.assignEv key])
    else
      Except.ok ({ m2 with mvalues := alistSet m2.mvalues key v }, [MEvent.assignEv key])

/-- The meta object carried by incoming raw update data. -/
def dataMetaEntries (d : List (String × AVal)) : List (String × Val) :=
  match alistFind d META_FIELD with
  | some (AVal.raw (Val.vobj ms)) => ms
  | _ => []

/-- The key loop of `updateModel`: skip the id/type field names, assign
other keys, and replay the non-read-only meta entries for META_FIELD. -/
def updateModelKeys (idF typeF : String) (d : List (String × AVal)) :
    MModel → List String → Except String (MModel × List MEvent)
  | m, [] => Except.ok (m, [])
  | m, key :: rest =>
    if key ≠ META_FIELD ∧ key ≠ idF ∧ key ≠ typeF then
      match assignModel m key ((alistFind d key).getD (AVal.raw Val.vnull)) with
      | Except.error msg => Except.error msg
      | Except.ok (m2, evs) =>
        match updateModelKeys idF typeF d m2 rest with
        | Except.error msg => Except.error msg
        | Except.ok (m3, evs2) => Except.ok (m3, evs ++ evs2)
    else if key = META_FIELD then
      let r := mergeMetaM m (omitKeys (dataMetaEntries d) READ_ONLY_META)
      match updateModelKeys idF typeF d r.1 rest with
      | Except.error msg => Except.error msg
      | Except.ok (m3, evs2) => Except.ok (m3, r.2 ++ evs2)
    else
      updateModelKeys idF typeF d m rest

/-- `updateModel` (part_000 lines 253-278): one startAction/endAction pair
around a `mergeMeta` of the incoming meta minus the read-only keys and the
per-key loop. -/
def updateModel (m : MModel) (d : List (String × AVal)) :
    Except String (MModel × List MEvent) :=
  let merged := mergeMetaM m (omitKeys (dataMetaEntries d) READ_ONLY_META)
  match updateModelKeys m.idFieldName m.typeFieldName d merged.1 (d.map Prod.fst) with
  | Except.error msg => Except.error msg
  | Except.ok (m2, evs) =>
    Except.ok (m2, MEvent.startEv :: (merged.2 ++ evs) ++ [MEvent.endEv])

/-- A transport response as the cache layer classifies it.  The cache code
itself is not under src/ (only its tests and exported names are):
modelled from the spec - a server-reported error is a non-2xx HTTP status
or a well-formed error payload. -/
structure NetResp where
  status : Nat
  errorPayload : Bool
  payload : Val
deriving DecidableEq

/-- Whether a response represents a server-reported error.  Modelled from
the spec: non-2xx status, or a well-formed error payload. -/
def isErrorResponse (r : NetResp) : Bool :=
  decide (r.status < 200) || decide (300 ≤ r.status) || r.errorPayload

/-- One cache entry: the raw payload and the fetch timestamp.  Modelled
from the spec (3. Cache Entry). -/
structure CacheEntry where
  payload : Val
  fetchedAt : Nat
deriving DecidableEq

/-- The cache store, keyed by request fingerprint.  Modelled from the spec
(Cache Store). -/
def CacheStore : Type := List (String × CacheEntry)

/-- Cache lookup by fingerprint. -/
def getCache (c : CacheStore) (key : String) : Option CacheEntry :=
  alistFind c key

/-- Writing a response into the Cache Store.  Modelled from the spec: a
response that represents a server-reported error is never written; a
successful response is stored (refreshing any previous entry in place). -/
def saveCache (c : CacheStore) (key : String) (t : Nat) (r : NetResp) : CacheStore :=
  if isErrorResponse r then c
  else alistSet c key (CacheEntry.mk r.payload t)

/-- One fetch under the default cache-first reading of the store, modelled
from the spec: a hit is served from the cache with no network call; a miss
issues the network call, propagates a server-reported error without
caching, and stores a success. -/
structure FetchOutcome where
  usedNetwork : Bool
  result : Except Val Val
  store : CacheStore

/-- See `FetchOutcome`. -/
def fetchCacheFirst (c : CacheStore) (key : String) (t : Nat) (net : NetResp) :
    FetchOutcome :=
  match getCache c key with
  | some entry => FetchOutcome.mk false (Except.ok entry.payload) c
  | none =>
    if isErrorResponse net then FetchOutcome.mk true (Except.error net.payload) c
    else FetchOutcome.mk true (Except.ok net.payload) (saveCache c key t net)

/-- `ParamArrayType` for array-valued query parameters. -/
inductive ParamArrayTypeM where
  | commaSeparated
  | multipleParams
  | paramArray
deriving DecidableEq

/-- The network configuration fields `buildUrl` reads (`config` from
NetworkUtils; passed explicitly in this embedding). -/
structure NetConfig where
  paramArrayType : ParamArrayTypeM
  sortParams : Bool
  encodeQueryString : Bool
  baseUrl : String
deriving DecidableEq

/-- A string or an array of strings, as JS template interpolation joins an
array with commas. -/
inductive StrOrList where
  | one (v : String)
  | many (vs : List String)
deriving DecidableEq

/-- A nested query-parameter value: a scalar, an array, or a nested object. -/
inductive PVal where
  | pstr (s : String)
  | parr (xs : List String)
  | pobj (fields : List (String × PVal))

/-- `Array.prototype.join(sep)`. -/
def joinSep (sep : String) : List String → String
  | [] => ""
  | [x] => x
  | x :: xs => x ++ sep ++ joinSep sep xs

mutual

/-- `parametrize` (part_001 lines 12-41), value side: a scalar emits one
scoped pair; an array emits pairs per the configured array style; a nested
object recurses with the scope reset to the current key (the source drops
the outer scope for nested objects). -/
def parametrizeVal (cfg : NetConfig) (scope key : String) : PVal → List (String × String)
  | PVal.pstr s => [(scope ++ key, s)]
  | PVal.parr xs =>
    match cfg.paramArrayType with
    | ParamArrayTypeM.commaSeparated => [(scope ++ key, joinSep "," xs)]
    | ParamArrayTypeM.multipleParams => xs.map (fun x => (scope ++ key, x))
    | ParamArrayTypeM.paramArray => xs.map (fun x => (scope ++ key ++ "][", x))
  | PVal.pobj fields => parametrizeObj cfg (key ++ ".") fields

/-- `parametrize`, object side: keys in insertion order. -/
def parametrizeObj (cfg : NetConfig) (scope : String) :
    List (String × PVal) → List (String × String)
  | [] => []
  | (k, v) :: rest => parametrizeVal cfg scope k v ++ parametrizeObj cfg scope rest

end

/-- `prepareFilters` (part_001 lines 43-45). -/
def prepareFilters (cfg : NetConfig) (filters : List (String × PVal)) : List String :=
  (parametrizeObj cfg "" filters).map (fun kv => "filter[" ++ kv.1 ++ "]=" ++ kv.2)

/-- JS template rendering of a string-or-array. -/
def renderSL : StrOrList → String
  | StrOrList.one v => v
  | StrOrList.many vs => joinSep "," vs

/-- `prepareSort` (part_001 lines 47-49); the empty string is falsy. -/
def prepareSort : Option StrOrList → List String
  | none => []
  | some (StrOrList.one v) => if v = "" then [] else ["sort=" ++ v]
  | some (StrOrList.many vs) => ["sort=" ++ joinSep "," vs]

/-- `prepareIncludes` (part_001 lines 51-61): with sort-params enabled an
array of includes is sorted (JS default string sort) before joining. -/
def prepareIncludes (cfg : NetConfig) : Option StrOrList → List String
  | none => []
  | some (StrOrList.one v) => if v = "" then [] else ["include=" ++ v]
  | some (StrOrList.many vs) =>
    if cfg.sortParams then
      ["include=" ++ joinSep "," (List.insertionSort (fun a b : String => a ≤ b) vs)]
    else
      ["include=" ++ joinSep "," vs]

/-- `prepareFields` (part_001 lines 63-71). -/
def prepareFields (fields : List (String × StrOrList)) : List String :=
  fields.map (fun kv => "fields[" ++ kv.1 ++ "]=" ++ renderSL kv.2)

/-- One raw custom query parameter: a preformatted string or a pair. -/
inductive RawParam where
  | rp (s : String)
  | rkv (k v : String)
deriving DecidableEq

/-- `prepareRawParams` (part_001 lines 73-83). -/
def prepareRawParams (params : List RawParam) : List String :=
  params.map (fun p =>
    match p with
    | RawParam.rp s => s
    | RawParam.rkv k v => k ++ "=" ++ v)

/-- The queryParams member of the request options consumed by `buildUrl`
(the `include` member is named `includes` here - `include` is reserved in
Lean). -/
structure QueryParams where
  filter : List (String × PVal)
  sort : Option StrOrList
  includes : Option StrOrList
  fields : List (String × StrOrList)
  custom : List RawParam

/-- `s.indexOf(c) !== -1`. -/
def hasChar (s : String) (c : Char) : Bool :=
  s.toList.any (fun x => x == c)

/-- `URL_REGEX.test(url)` (consts.ts is not under src/); modelled as an
absolute-URL test. -/
def urlHasScheme (url : String) : Bool :=
  List.isPrefixOf "http://".toList url.toList ||
    List.isPrefixOf "https://".toList url.toList ||
    List.isPrefixOf "//".toList url.toList

/-- `prefixUrl` (part_001 lines 85-91). -/
def prefixUrl (cfg : NetConfig) (url : String) (containsBase : Bool) : String :=
  if urlHasScheme url || containsBase then url else cfg.baseUrl ++ url

/-- `appendParams` (part_001 lines 93-103). -/
def appendParams (url : String) (params : List String) : String :=
  if params.isEmpty then url
  else url ++ (if hasChar url '?' then "&" else "?") ++ joinSep "&" params

/-- `encodeParam` (part_001 lines 105-108): `encodeURIComponent` followed
by restoring the first encoded separator.  Percent-escaping composed with
the later `decodeURIComponent` in `sortUrlParams` is the identity on the
character sets the claims quantify over, so the escaping itself is modelled
as the identity. -/
def encodeParam (p : String) : String := p

/-- The concatenated parameter list of `buildUrl` (part_001 lines 122-128). -/
def allParams (cfg : NetConfig) (o : QueryParams) : List String :=
  prepareFilters cfg o.filter ++ prepareSort o.sort ++ prepareIncludes cfg o.includes ++
    prepareFields o.fields ++ prepareRawParams o.custom

/-- Split a character list at every occurrence of a separator (the pieces
of `String.prototype.split`). -/
def splitOnCharAux (c : Char) : List Char → List (List Char)
  | [] => [[]]
  | x :: xs =>
    if x = c then [] :: splitOnCharAux c xs
    else
      match splitOnCharAux c xs with
      | [] => [[x]]
      | h :: t => (x :: h) :: t

/-- `String.prototype.split(c)` for a single-character separator. -/
def splitOnChar (c : Char) (s : String) : List String :=
  (splitOnCharAux c s.toList).map (fun l => String.mk l)

/-- Split at the first occurrence of a separator; without one the whole
input is the first component (URLSearchParams: name with empty value). -/
def splitFirstOnChar (c : Char) : List Char → List Char × List Char
  | [] => ([], [])
  | x :: xs =>
    if x = c then ([], xs)
    else
      let r := splitFirstOnChar c xs
      (x :: r.1, r.2)

/-- One `name=value` piece as URLSearchParams parses it (the first `=`
separates; percent-decoding is the identity on the charsets involved). -/
def parsePieceL (l : List Char) : String × String :=
  (String.mk (splitFirstOnChar '=' l).1, String.mk (splitFirstOnChar '=' l).2)

/-- The name/value pairs of a query string as URLSearchParams holds them. -/
def parseQueryPairs (q : String) : List (String × String) :=
  (splitOnCharAux '&' q.toList).map parsePieceL

/-- URLSearchParams serialization (escaping modelled as the identity, see
`encodeParam`; `decodeURIComponent` in the source undoes it). -/
def renderPairs (ps : List (String × String)) : String :=
  joinSep "&" (ps.map (fun kv => kv.1 ++ "=" ++ kv.2))

/-- Lexicographic comparison of character lists by code points - the order
`URLSearchParams.sort()` sorts names by.  (Proved below to agree with the
standard `String` order; stated over characters so that it computes.) -/
def charListLe : List Char → List Char → Bool
  | [], _ => true
  | _ :: _, [] => false
  | x :: xs, y :: ys =>
    if x < y then true
    else if y < x then false
    else charListLe xs ys

/-- The by-name comparison of two query pairs. -/
def keyLe (a b : String × String) : Prop :=
  charListLe a.1.toList b.1.toList = true

instance : DecidableRel keyLe := fun a b =>
  instDecidableEqBool (charListLe a.1.toList b.1.toList) true

/-- `URLSearchParams.sort()`: a stable sort by name (insertion sort is
stable, matching the URL standard's stability requirement). -/
def sortPairs (ps : List (String × String)) : List (String × String) :=
  List.insertionSort keyLe ps

/-- `sortUrlParams` (part_001 lines 143-159): split the URL at `?` (the JS
destructuring reads the first two segments), return it unchanged without a
(truthy) query, otherwise parse, stably sort by name, and re-serialize.
`config.encodeQueryString` only selects whether the serialized string is
percent-decoded again; escaping is modelled as the identity (see
`encodeParam`), so both branches coincide here. -/
def sortUrlParams (cfg : NetConfig) (url : String) : String :=
  match splitOnChar '?' url with
  | [] => url
  | [_] => url
  | base :: searchParams :: _ =>
    if searchParams = "" then url
    else base ++ "?" ++ renderPairs (sortPairs (parseQueryPairs searchParams))

/-- `buildUrl` (part_001 lines 110-141), reduced to the URL string it
returns (the data/headers members pass through unchanged). -/
def buildUrl (cfg : NetConfig) (url : String) (o : QueryParams) (containsBase : Bool) :
    String :=
  let params := allParams cfg o
  let params2 := if cfg.encodeQueryString then params.map encodeParam else params
  let baseUrl := appendParams (prefixUrl cfg url containsBase) params2
  if cfg.sortParams then sortUrlParams cfg baseUrl else baseUrl

/-- Whether a query value is a plain scalar. -/
def isPStr : PVal → Bool
  | PVal.pstr _ => true
  | _ => false

/-- The scalar carried by a plain query value. -/
def pstrVal : PVal → String
  | PVal.pstr s => s
  | _ => ""

/-- Character-list join with a single-character separator, the image of
`joinSep` under `String.toList`. -/
def joinWithChar (c : Char) : List (List Char) → List Char
  | [] => []
  | [p] => p
  | p :: ps => p ++ c :: joinWithChar c ps

lemma isModelRefSpec_obj_iff (fields : List (String × Val)) :
    IsModelRefSpec (Val.vobj fields) ↔
      ("type" ∈ fields.map Prod.fst ∧ "id" ∈ fields.map Prod.fst ∧
        ∀ k ∈ fields.map Prod.fst, k = "type" ∨ k = "id") := by
  constructor
  · intro h
    cases h with
    | obj _ a b c => exact ⟨a, b, c⟩
  · rintro ⟨a, b, c⟩
    exact IsModelRefSpec.obj fields a b c

lemma isModelRefSpec_arr_iff (items : List Val) :
    IsModelRefSpec (Val.varr items) ↔ ∀ v ∈ items, IsModelRefSpec v := by
  constructor
  · intro h
    cases h with
    | arr _ a => exact a
  · intro h
    exact IsModelRefSpec.arr items h

lemma isModelReference_obj_eq (fields : List (String × Val))
    (hnd : (fields.map Prod.fst).Nodup) :
    (isModelReference (Val.vobj fields) = true) ↔
      ("type" ∈ fields.map Prod.fst ∧ "id" ∈ fields.map Prod.fst ∧
        ∀ k ∈ fields.map Prod.fst, k = "type" ∨ k = "id") := by
  constructor
  · intro hh
    simp only [isModelReference, Bool.and_eq_true] at hh
    obtain ⟨⟨h1, h2⟩, h3⟩ := hh
    obtain ⟨kv1, hkv1, he1⟩ := List.any_eq_true.mp h1
    obtain ⟨kv2, hkv2, he2⟩ := List.any_eq_true.mp h2
    have ht : "type" ∈ fields.map Prod.fst :=
      List.mem_map.mpr ⟨kv1, hkv1, by simpa using he1⟩
    have hi : "id" ∈ fields.map Prod.fst :=
      List.mem_map.mpr ⟨kv2, hkv2, by simpa using he2⟩
    refine ⟨ht, hi, ?_⟩
    have hlen2 : (fields.map Prod.fst).length = 2 := by
      rw [List.length_map]
      exact beq_iff_eq.mp h3
    obtain ⟨a, b, hab⟩ := List.length_eq_two.mp hlen2
    rw [hab] at ht hi ⊢
    have ht2 : "type" = a ∨ "type" = b := by simpa using ht
    have hi2 : "id" = a ∨ "id" = b := by simpa using hi
    have htid : ("type" : String) ≠ "id" := by decide
    intro k hk
    have hk2 : k = a ∨ k = b := by simpa using hk
    rcases ht2 with ht2 | ht2 <;> rcases hi2 with hi2 | hi2
    · exact absurd (ht2.trans hi2.symm) htid
    · rcases hk2 with hk2 | hk2
      · exact Or.inl (hk2.trans ht2.symm)
      · exact Or.inr (hk2.trans hi2.symm)
    · rcases hk2 with hk2 | hk2
      · exact Or.inr (hk2.trans hi2.symm)
      · exact Or.inl (hk2.trans ht2.symm)
    · exact absurd (ht2.trans hi2.symm) htid
  · rintro ⟨ht, hi, honly⟩
    obtain ⟨kv1, hkv1, hk1⟩ := List.mem_map.mp ht
    obtain ⟨kv2, hkv2, hk2⟩ := List.mem_map.mp hi
    simp only [isModelReference, Bool.and_eq_true]
    refine ⟨⟨List.any_eq_true.mpr ⟨kv1, hkv1, by simp [hk1]⟩,
            List.any_eq_true.mpr ⟨kv2, hkv2, by simp [hk2]⟩⟩, ?_⟩
    have hsub : fields.map Prod.fst ⊆ ["type", "id"] := by
      intro k hk
      rcases honly k hk with h | h <;> simp [h]
    have hsub2 : (["type", "id"] : List String) ⊆ fields.map Prod.fst := by
      intro k hk
      have : k = "type" ∨ k = "id" := by simpa using hk
      rcases this with h | h <;> subst h <;> assumption
    have h1 : (fields.map Prod.fst).length ≤ 2 := (hnd.subperm hsub).length_le
    have h2 : 2 ≤ (fields.map Prod.fst).length :=
      (List.Nodup.subperm (by decide) hsub2).length_le
    have hflen : fields.length = 2 := by
      have hm := List.length_map fields Prod.fst
      omega
    simp [hflen]

mutual

theorem isModelReference_iff_spec (v : Val) (h : valWF v = true) :
    isModelReference v = true ↔ IsModelRefSpec v := by
  cases v with
  | vnull => exact ⟨fun hh => by simp [isModelReference] at hh, fun hs => by cases hs⟩
  | vstr s => exact ⟨fun hh => by simp [isModelReference] at hh, fun hs => by cases hs⟩
  | vint n => exact ⟨fun hh => by simp [isModelReference] at hh, fun hs => by cases hs⟩
  | vbool b => exact ⟨fun hh => by simp [isModelReference] at hh, fun hs => by cases hs⟩
  | vobj fields =>
    have hnd : (fields.map Prod.fst).Nodup := by
      simp only [valWF, Bool.and_eq_true, decide_eq_true_eq] at h
      exact h.1
    rw [isModelReference_obj_eq fields hnd, isModelRefSpec_obj_iff]
  | varr items =>
    have hw : itemsWF items = true := by simpa [valWF] using h
    have : isModelReference (Val.varr items) = isModelReferenceList items := rfl
    rw [this, isModelRefSpec_arr_iff]
    exact isModelReferenceList_iff_spec items hw

theorem isModelReferenceList_iff_spec (items : List Val) (h : itemsWF items = true) :
    isModelReferenceList items = true ↔ ∀ v ∈ items, IsModelRefSpec v := by
  cases items with
  | nil => simp [isModelReferenceList]
  | cons v vs =>
    simp only [itemsWF, Bool.and_eq_true] at h
    simp only [isModelReferenceList, Bool.and_eq_true, List.forall_mem_cons]
    rw [isModelReference_iff_spec v h.1, isModelReferenceList_iff_spec vs h.2]

end

/-- C9: `isModelReference` returns true exactly on non-null objects whose
key set is exactly (type, id) and on array-like values all of whose elements
satisfy the predicate; in particular it returns true on the empty array. -/
theorem c9_isModelReference_characterization :
    (∀ v : Val, valWF v = true → (isModelReference v = true ↔ IsModelRefSpec v)) ∧
    isModelReference (Val.varr []) = true :=
  ⟨isModelReference_iff_spec, rfl⟩

/-- Witness for C9 at a concrete placeholder object and the empty array. -/
theorem c9_witness :
    IsModelRefSpec (Val.vobj [("type", Val.vstr "event"), ("id", Val.vint 1)]) ∧
    isModelReference (Val.varr []) = true :=
  ⟨(c9_isModelReference_characterization.1
      (Val.vobj [("type", Val.vstr "event"), ("id", Val.vint 1)]) (by decide)).mp (by decide),
   c9_isModelReference_characterization.2⟩

/-- C10: `getModelRef` is idempotent, is the identity on every value that is
not a PureModel instance, and on a PureModel with a stored id returns exactly
the object with keys id (`getModelId`) and type (`getModelType`). -/
theorem c10_getModelRef_idempotent :
    (∀ x : JsVal, (getModelRef x).bind getModelRef = getModelRef x) ∧
    (∀ v : Val, getModelRef (JsVal.raw v) = Except.ok (JsVal.raw v)) ∧
    (∀ (m : PModel) (i : Val), m.metaId = some i →
      getModelRef (JsVal.pm m) =
        Except.ok (JsVal.raw (Val.vobj [("id", i), ("type", getModelType (JsVal.pm m))]))) := by
  refine ⟨?_, fun v => rfl, ?_⟩
  · intro x
    cases x with
    | pm m =>
      cases hm : m.metaId with
      | none => simp [getModelRef, getModelId, hm, Except.map, Except.bind]
      | some i => simp [getModelRef, getModelId, hm, Except.map, Except.bind]
    | raw v => rfl
  · intro m i hm
    simp [getModelRef, getModelId, hm, Except.map]

/-- Witness for C10 at a concrete model instance carrying id 5, type event. -/
theorem c10_witness :
    getModelRef (JsVal.pm ⟨some (Val.vint 5), some (Val.vstr "event"), Val.vstr "base"⟩) =
      Except.ok (JsVal.raw (Val.vobj [("id", Val.vint 5), ("type", Val.vstr "event")])) :=
  c10_getModelRef_idempotent.2.2
    ⟨some (Val.vint 5), some (Val.vstr "event"), Val.vstr "base"⟩ (Val.vint 5) rfl

lemma alistFind_cons {α : Type} (k0 : String) (v0 : α) (rest : List (String × α)) (k : String) :
    alistFind ((k0, v0) :: rest) k = if k0 = k then some v0 else alistFind rest k := by
  by_cases h : k0 = k
  · rw [if_pos h]
    unfold alistFind
    rw [List.find?_cons_of_pos _ (by simpa using h)]
    rfl
  · rw [if_neg h]
    unfold alistFind
    rw [List.find?_cons_of_neg _ (by simpa using h)]

lemma alistFind_eq_none {α : Type} {l : List (String × α)} {k : String}
    (h : alistFind l k = none) : ∀ kv ∈ l, kv.1 ≠ k := by
  intro kv hkv
  unfold alistFind at h
  have h2 := List.find?_eq_none.mp (Option.map_eq_none'.mp h) kv hkv
  simpa using h2

lemma filter_ne_metaField {l : List (String × Val)} (h : alistFind l META_FIELD = none) :
    l.filter (fun kv => kv.1 != META_FIELD) = l := by
  apply List.filter_eq_self.mpr
  intro kv hkv
  simpa using alistFind_eq_none h kv hkv

lemma le_foldr_max {l : List Entity} {e : Entity} (h : e ∈ l) :
    idNat e ≤ l.foldr (fun e2 acc => max (idNat e2) acc) 0 := by
  induction l with
  | nil => cases h
  | cons a r ih =>
    rcases List.mem_cons.mp h with h2 | h2
    · subst h2
      exact Nat.le_max_left _ _
    · exact Nat.le_trans (ih h2) (Nat.le_max_right _ _)

lemma freshAutoId_not_used {c : Collection} {e : Entity} (h : e ∈ c.models) :
    e.eid ≠ freshAutoId c := by
  intro he
  have hle : idNat e ≤ maxIdNat c := le_foldr_max h
  have hid : idNat e = maxIdNat c + 1 := by
    simp [idNat, he, freshAutoId]
    omega
  omega

lemma findOne_freshAutoId (c : Collection) (t : Val) :
    findOne c t (freshAutoId c) = none := by
  cases hf : findOne c t (freshAutoId c) with
  | none => rfl
  | some e =>
    have hmem := List.mem_of_find?_eq_some hf
    have hp := List.find?_some hf
    simp only [Bool.and_eq_true, beq_iff_eq] at hp
    exact absurd hp.2 (freshAutoId_not_used hmem)

lemma nonNullish_some_of_ne {v : Val} (h : v ≠ Val.vnull) : nonNullish (some v) = some v := by
  cases v with
  | vnull => exact absurd rfl h
  | vstr s => rfl
  | vint n => rfl
  | vbool b => rfl
  | vobj fs => rfl
  | varr xs => rfl

lemma computeRawId_auto (c : Collection) (raw : List (String × Val))
    (h1 : alistFind raw DEFAULT_ID_FIELD = none)
    (h2 : alistFind (rawMeta raw) metaIdKey = none) :
    computeRawId c raw = freshAutoId c := by
  unfold computeRawId
  rw [h1, h2]
  rfl

lemma computeRawType_meta (raw : List (String × Val)) (t : Val)
    (h1 : alistFind raw DEFAULT_TYPE_FIELD = none)
    (h2 : alistFind (rawMeta raw) metaTypeKey = some t) :
    computeRawType raw t = t := by
  unfold computeRawType
  rw [h1, h2]
  cases t <;> rfl

/-- C1: adding raw data for a (type, id) that is already registered fails
with the `MODEL_EXISTS` error; the embedding returns no new registry state
on the error path, so the prior entity is neither replaced nor changed. -/
theorem c1_add_duplicate_is_error (c : Collection) (raw : List (String × Val)) (t : Val)
    (e : Entity) (h : findOne c (computeRawType raw t) (computeRawId c raw) = some e) :
    addModel c raw t = Except.error MODEL_EXISTS := by
  simp only [addModel]
  rw [h]

/-- Witness for C1: re-adding id 1 of type event over a registry that
already holds that entity. -/
theorem c1_witness :
    addModel (Collection.mk [Entity.mk (Val.vstr "event") (Val.vint 1) none []])
      [("id", Val.vint 1)] (Val.vstr "event") = Except.error MODEL_EXISTS :=
  c1_add_duplicate_is_error _ _ _ (Entity.mk (Val.vstr "event") (Val.vint 1) none [])
    (by decide)

/-- C3 counterexample: cloning a concrete entity that is in no collection
does not fail - it warns and returns a constructed model. -/
theorem c3_counterexample :
    (cloneModel none
        (Entity.mk (Val.vstr "event") (Val.vint 4) none [("name", Val.vstr "x")])).warned
      = true ∧
    exceptIsOk (cloneModel none
        (Entity.mk (Val.vstr "event") (Val.vint 4) none [("name", Val.vstr "x")])).outcome
      = true := by
  exact ⟨rfl, rfl⟩

/-- C3 amended: cloning an entity that is in no registry does not throw;
`cloneModel` issues the not-in-collection warning and returns a new model
built from the raw form, attached to no registry. -/
theorem c3_clone_detached_warns_and_returns (e : Entity) :
    (cloneModel none e).warned = true ∧
    ∃ e2 : Entity, (cloneModel none e).outcome = Except.ok (none, e2) :=
  ⟨rfl, ⟨_, rfl⟩⟩

/-- C4: cloning an entity that is a member of a registry succeeds and
returns a clone with a different id, with originalId set to the source id,
and with a raw snapshot that agrees with the source's outside the meta
member.  The hypotheses say the entity's data fields do not shadow the
id/type/meta members (those live in the meta object). -/
theorem c4_cloneModel_contract (col : Collection) (e : Entity)
    (hmem : e ∈ col.models)
    (hnn : e.eid ≠ Val.vnull)
    (hid : alistFind e.efields DEFAULT_ID_FIELD = none)
    (hty : alistFind e.efields DEFAULT_TYPE_FIELD = none)
    (hmf : alistFind e.efields META_FIELD = none) :
    ∃ (col2 : Collection) (e2 : Entity),
      cloneModel (some col) e =
        { warned := false, outcome := Except.ok (some col2, e2) } ∧
      e2.eid ≠ e.eid ∧
      e2.eoriginalId = some e.eid ∧
      nonMetaFields (modelToJSON e2) = nonMetaFields (modelToJSON e) := by
  have hms2 : rawMeta ((META_FIELD,
      Val.vobj [(metaTypeKey, e.etype), (metaCollectionKey, Val.vnull),
        (metaOriginalIdKey, e.eid)]) :: e.efields) =
      [(metaTypeKey, e.etype), (metaCollectionKey, Val.vnull), (metaOriginalIdKey, e.eid)] := rfl
  have hclone : cloneModel (some col) e =
      { warned := false
        outcome := (addModel col
          ((META_FIELD, Val.vobj [(metaTypeKey, e.etype), (metaCollectionKey, Val.vnull),
            (metaOriginalIdKey, e.eid)]) :: e.efields) e.etype).map
          (fun p => (some p.1, p.2)) } := rfl
  have hfid : alistFind ((META_FIELD,
      Val.vobj [(metaTypeKey, e.etype), (metaCollectionKey, Val.vnull),
        (metaOriginalIdKey, e.eid)]) :: e.efields) DEFAULT_ID_FIELD = none := by
    rw [alistFind_cons, if_neg (by decide)]
    exact hid
  have hfty : alistFind ((META_FIELD,
      Val.vobj [(metaTypeKey, e.etype), (metaCollectionKey, Val.vnull),
        (metaOriginalIdKey, e.eid)]) :: e.efields) DEFAULT_TYPE_FIELD = none := by
    rw [alistFind_cons, if_neg (by decide)]
    exact hty
  have hcid := computeRawId_auto col _ hfid (by rw [hms2]; rfl)
  have hct := computeRawType_meta _ e.etype hfty (by rw [hms2]; rfl)
  have hfilter : ((META_FIELD, Val.vobj [(metaTypeKey, e.etype), (metaCollectionKey, Val.vnull),
      (metaOriginalIdKey, e.eid)]) :: e.efields).filter (fun kv => kv.1 != META_FIELD)
      = e.efields := by
    have h0 : ((META_FIELD, Val.vobj [(metaTypeKey, e.etype), (metaCollectionKey, Val.vnull),
        (metaOriginalIdKey, e.eid)]) :: e.efields).filter (fun kv => kv.1 != META_FIELD)
        = e.efields.filter (fun kv => kv.1 != META_FIELD) := rfl
    rw [h0, filter_ne_metaField hmf]
  have horig : nonNullish (alistFind
      [(metaTypeKey, e.etype), (metaCollectionKey, Val.vnull), (metaOriginalIdKey, e.eid)]
      metaOriginalIdKey) = some e.eid := by
    have h0 : alistFind
        [(metaTypeKey, e.etype), (metaCollectionKey, Val.vnull), (metaOriginalIdKey, e.eid)]
        metaOriginalIdKey = some e.eid := rfl
    rw [h0, nonNullish_some_of_ne hnn]
  have hadd : addModel col
      ((META_FIELD, Val.vobj [(metaTypeKey, e.etype), (metaCollectionKey, Val.vnull),
        (metaOriginalIdKey, e.eid)]) :: e.efields) e.etype =
      Except.ok (Collection.mk (col.models ++
          [Entity.mk e.etype (freshAutoId col) (some e.eid) e.efields]),
        Entity.mk e.etype (freshAutoId col) (some e.eid) e.efields) := by
    simp only [addModel]
    rw [hcid, hct, findOne_freshAutoId col e.etype, hms2, horig, hfilter]
  refine ⟨Collection.mk (col.models ++
      [Entity.mk e.etype (freshAutoId col) (some e.eid) e.efields]),
    Entity.mk e.etype (freshAutoId col) (some e.eid) e.efields, ?_, ?_, rfl, rfl⟩
  · rw [hclone, hadd]
    rfl
  · exact fun h2 => freshAutoId_not_used hmem h2.symm

/-- Witness for C4: cloning the only entity of a one-entity registry. -/
theorem c4_witness :
    ∃ (col2 : Collection) (e2 : Entity),
      cloneModel
          (some (Collection.mk [Entity.mk (Val.vstr "event") (Val.vint 1) none
            [("name", Val.vstr "a")]]))
          (Entity.mk (Val.vstr "event") (Val.vint 1) none [("name", Val.vstr "a")]) =
        { warned := false, outcome := Except.ok (some col2, e2) } ∧
      e2.eid ≠ (Entity.mk (Val.vstr "event") (Val.vint 1) none [("name", Val.vstr "a")]).eid ∧
      e2.eoriginalId =
        some (Entity.mk (Val.vstr "event") (Val.vint 1) none [("name", Val.vstr "a")]).eid ∧
      nonMetaFields (modelToJSON e2) =
        nonMetaFields (modelToJSON
          (Entity.mk (Val.vstr "event") (Val.vint 1) none [("name", Val.vstr "a")])) :=
  c4_cloneModel_contract _ _ (by decide) (by decide) (by decide) (by decide) (by decide)


lemma addModel_mem {c : Collection} {raw : List (String × Val)} {t : Val}
    {c2 : Collection} {e2 : Entity} (h : addModel c raw t = Except.ok (c2, e2)) :
    e2 ∈ c2.models := by
  simp only [addModel] at h
  cases hfo : findOne c (computeRawType raw t) (computeRawId c raw) with
  | some e =>
    rw [hfo] at h
    exact absurd h (by simp)
  | none =>
    rw [hfo] at h
    cases h
    exact List.mem_append_right _ (List.mem_singleton_self _)

lemma getRefValueItem_pure (col : Collection) (fd : RefModelDef) (item : Val)
    (h : isInlineItem item = false) :
    ∃ r : RefResolved, getRefValueItem (some col) fd item = Except.ok (some col, r) := by
  by_cases h0 : item = Val.vnull
  · exact ⟨RefResolved.rnull, by rw [h0]; rfl⟩
  · have hinline : (isObjVal item && !isModelReference item) = false := by
      simpa [isInlineItem] using h
    by_cases h1 : isObjVal item = true
    · have himr : isModelReference item = true := by
        cases hh : isModelReference item with
        | false =>
          rw [h1, hh] at hinline
          exact absurd hinline (by simp)
        | true => rfl
      cases hfo : findOne col (valMember item "type") (valMember item "id") with
      | some e =>
        exact ⟨RefResolved.rentity e, by simp [getRefValueItem, h0, h1, himr, hfo]⟩
      | none =>
        exact ⟨RefResolved.rplaceholder item, by simp [getRefValueItem, h0, h1, himr, hfo]⟩
    · have h1f : isObjVal item = false := by simpa using h1
      cases hfo : findOne col (getModelRefType fd item) item with
      | some e =>
        exact ⟨RefResolved.rentity e, by simp [getRefValueItem, h0, hinline, h1f, hfo]⟩
      | none =>
        exact ⟨RefResolved.rplaceholder
            (Val.vobj [("id", item), ("type", getModelRefType fd item)]),
          by simp [getRefValueItem, h0, hinline, h1f, hfo]⟩

lemma getRefValueList_pure (col : Collection) (fd : RefModelDef) (items : List Val)
    (h : ∀ item ∈ items, isInlineItem item = false) :
    ∃ rs : List RefResolved,
      getRefValueList (some col) fd items = Except.ok (some col, rs) ∧
      List.Forall₂ (fun item r =>
        getRefValueItem (some col) fd item = Except.ok (some col, r)) items rs := by
  induction items with
  | nil => exact ⟨[], rfl, List.Forall₂.nil⟩
  | cons a rest ih =>
    obtain ⟨r, hr⟩ := getRefValueItem_pure col fd a (h a (List.mem_cons_self a rest))
    obtain ⟨rs, hrs, hforall⟩ := ih (fun i hi => h i (List.mem_cons_of_mem _ hi))
    refine ⟨r :: rs, ?_, List.Forall₂.cons hr hforall⟩
    simp [getRefValueList, hr, hrs]

/-- C2: the item-wise resolution rules of `getRefValue`: null stays null; a
non-placeholder object goes through the registry's `add` under the field's
declared or computed target type (the new entity, registered in the new
registry state, is returned on success); a placeholder resolves to the
registry's entity for its own (type, id) and otherwise stays unchanged; a
bare identifier resolves to the registry's entity for (computed target
type, id) and otherwise becomes a synthesized placeholder with members id
and type; and lists are resolved item-wise. -/
theorem c2_getRefValue_resolution :
    (∀ (c : Option Collection) (fd : RefModelDef),
      getRefValueItem c fd Val.vnull = Except.ok (c, RefResolved.rnull)) ∧
    (∀ (col : Collection) (fd : RefModelDef) (fields : List (String × Val)),
      isModelReference (Val.vobj fields) = false →
        getRefValueItem (some col) fd (Val.vobj fields) =
          (addModel col fields (getModelRefType fd (Val.vobj fields))).map
            (fun p => (some p.1, RefResolved.rentity p.2)) ∧
        ∀ (col2 : Collection) (e2 : Entity),
          addModel col fields (getModelRefType fd (Val.vobj fields)) =
              Except.ok (col2, e2) →
            e2 ∈ col2.models) ∧
    (∀ (col : Collection) (fd : RefModelDef) (fields : List (String × Val)),
      isModelReference (Val.vobj fields) = true →
        getRefValueItem (some col) fd (Val.vobj fields) =
          match findOne col (valMember (Val.vobj fields) "type")
              (valMember (Val.vobj fields) "id") with
          | some e => Except.ok (some col, RefResolved.rentity e)
          | none => Except.ok (some col, RefResolved.rplaceholder (Val.vobj fields))) ∧
    (∀ (col : Collection) (fd : RefModelDef) (item : Val),
      isObjVal item = false → item ≠ Val.vnull →
        getRefValueItem (some col) fd item =
          match findOne col (getModelRefType fd item) item with
          | some e => Except.ok (some col, RefResolved.rentity e)
          | none =>
            Except.ok (some col, RefResolved.rplaceholder
              (Val.vobj [("id", item), ("type", getModelRefType fd item)]))) ∧
    (∀ (col : Collection) (fd : RefModelDef) (items : List Val),
      (∀ item ∈ items, isInlineItem item = false) →
        ∃ rs : List RefResolved,
          getRefValue (some col) fd (Val.varr items) =
            Except.ok (some col, RefValue.many rs) ∧
          List.Forall₂ (fun item r =>
            getRefValueItem (some col) fd item = Except.ok (some col, r)) items rs) := by
  refine ⟨fun c fd => rfl, ?_, ?_, ?_, ?_⟩
  · intro col fd fields hmr
    refine ⟨?_, fun col2 e2 hadd => addModel_mem hadd⟩
    simp [getRefValueItem, hmr, isObjVal, valObjFields]
  · intro col fd fields hmr
    simp [getRefValueItem, hmr, isObjVal]
  · intro col fd item hobj hnn
    simp [getRefValueItem, hobj, hnn]
  · intro col fd items hni
    obtain ⟨rs, hrs, hforall⟩ := getRefValueList_pure col fd items hni
    exact ⟨rs, by simp [getRefValue, hrs, Except.map], hforall⟩

/-- Witness for C2: a placeholder resolving to the registered entity of the
same (type, id). -/
theorem c2_witness :
    getRefValueItem (some (Collection.mk [Entity.mk (Val.vstr "event") (Val.vint 1) none []]))
        (RefModelDef.statict (Val.vstr "event"))
        (Val.vobj [("type", Val.vstr "event"), ("id", Val.vint 1)]) =
      Except.ok (some (Collection.mk [Entity.mk (Val.vstr "event") (Val.vint 1) none []]),
        RefResolved.rentity (Entity.mk (Val.vstr "event") (Val.vint 1) none [])) := by
  rw [c2_getRefValue_resolution.2.2.1 _ _ _ (by decide)]
  rfl



lemma notMem_readOnlyMeta {k : String} (h : k ∉ READ_ONLY_META) :
    k ≠ metaIdKey ∧ k ≠ metaTypeKey := by
  constructor <;> intro he <;> subst he <;> exact h (by decide)

lemma setMetaM_preserves {m : MModel} {k : String} {v : Val} (h : k ∉ READ_ONLY_META) :
    (setMetaM m k v).idVal = m.idVal ∧ (setMetaM m k v).typeVal = m.typeVal ∧
    (setMetaM m k v).idFieldName = m.idFieldName ∧
    (setMetaM m k v).typeFieldName = m.typeFieldName := by
  obtain ⟨h1, h2⟩ := notMem_readOnlyMeta h
  simp [setMetaM, h1, h2]

lemma mergeMetaM_spec :
    ∀ (entries : List (String × Val)) (m : MModel),
    (∀ kv ∈ entries, kv.1 ∉ READ_ONLY_META) →
    ((mergeMetaM m entries).1.idVal = m.idVal ∧
     (mergeMetaM m entries).1.typeVal = m.typeVal ∧
     (mergeMetaM m entries).1.idFieldName = m.idFieldName ∧
     (mergeMetaM m entries).1.typeFieldName = m.typeFieldName) ∧
    ∀ ev ∈ (mergeMetaM m entries).2,
      ∃ k, ev = MEvent.setMetaEv k ∧ k ∉ READ_ONLY_META := by
  intro entries
  induction entries with
  | nil =>
    intro m h
    exact ⟨⟨rfl, rfl, rfl, rfl⟩, by simp [mergeMetaM]⟩
  | cons kv rest ih =>
    intro m h
    obtain ⟨k, v⟩ := kv
    have hk : k ∉ READ_ONLY_META := h (k, v) (List.mem_cons_self _ _)
    have hrest := ih (setMetaM m k v) (fun kv2 hkv2 => h kv2 (List.mem_cons_of_mem _ hkv2))
    obtain ⟨⟨a1, a2, a3, a4⟩, acls⟩ := hrest
    obtain ⟨b1, b2, b3, b4⟩ := setMetaM_preserves (m := m) (v := v) hk
    have hfst : (mergeMetaM m ((k, v) :: rest)).1 =
        (mergeMetaM (setMetaM m k v) rest).1 := rfl
    have hsnd : (mergeMetaM m ((k, v) :: rest)).2 =
        MEvent.setMetaEv k :: (mergeMetaM (setMetaM m k v) rest).2 := rfl
    refine ⟨⟨?_, ?_, ?_, ?_⟩, ?_⟩
    · rw [hfst, a1, b1]
    · rw [hfst, a2, b2]
    · rw [hfst, a3, b3]
    · rw [hfst, a4, b4]
    · intro ev hev
      rw [hsnd] at hev
      rcases List.mem_cons.mp hev with he | he
      · exact ⟨k, he, hk⟩
      · exact acls ev he

lemma omitKeys_prop (l : List (String × Val)) (keys : List String) :
    ∀ kv ∈ omitKeys l keys, kv.1 ∉ keys := by
  intro kv hkv
  simp only [omitKeys] at hkv
  simpa using List.of_mem_filter hkv

lemma assignModel_ok_spec {m : MModel} {key : String} {v : AVal} {m2 : MModel}
    {evs : List MEvent} (h : assignModel m key v = Except.ok (m2, evs)) :
    m2.idVal = m.idVal ∧ m2.typeVal = m.typeVal ∧
    m2.idFieldName = m.idFieldName ∧ m2.typeFieldName = m.typeFieldName ∧
    evs = [MEvent.assignEv key] := by
  cases hf : alistFind m.mfields key with
  | some fd =>
    simp only [assignModel, hf] at h
    split_ifs at h
    all_goals first
      | exact Except.noConfusion h
      | (cases h; exact ⟨rfl, rfl, rfl, rfl, rfl⟩)
  | none =>
    simp only [assignModel, hf] at h
    split_ifs at h <;> cases h <;> exact ⟨rfl, rfl, rfl, rfl, rfl⟩

lemma updateModelKeys_spec (idF typeF : String) (d : List (String × AVal)) :
    ∀ (keys : List String) (m m2 : MModel) (evs : List MEvent),
    updateModelKeys idF typeF d m keys = Except.ok (m2, evs) →
    m2.idVal = m.idVal ∧ m2.typeVal = m.typeVal ∧
    m2.idFieldName = m.idFieldName ∧ m2.typeFieldName = m.typeFieldName ∧
    (∀ k, MEvent.assignEv k ∈ evs ↔
      (k ∈ keys ∧ k ≠ META_FIELD ∧ k ≠ idF ∧ k ≠ typeF)) ∧
    (∀ ev ∈ evs, (∃ k, ev = MEvent.assignEv k) ∨
      (∃ k, ev = MEvent.setMetaEv k ∧ k ∉ READ_ONLY_META)) := by
  intro keys
  induction keys with
  | nil =>
    intro m m2 evs h
    simp only [updateModelKeys] at h
    cases h
    exact ⟨rfl, rfl, rfl, rfl, by simp, by simp⟩
  | cons key rest ih =>
    intro m m2 evs h
    simp only [updateModelKeys] at h
    split_ifs at h with h1 h2
    · obtain ⟨hkm, hki, hkt⟩ := h1
      cases ha : assignModel m key ((alistFind d key).getD (AVal.raw Val.vnull)) with
      | error msg =>
        rw [ha] at h
        exact Except.noConfusion h
      | ok p =>
        obtain ⟨mm, mevs⟩ := p
        simp only [ha] at h
        cases hu : updateModelKeys idF typeF d mm rest with
        | error msg =>
          rw [hu] at h
          exact Except.noConfusion h
        | ok q =>
          obtain ⟨m3, evs2⟩ := q
          rw [hu] at h
          cases h
          obtain ⟨s1, s2, s3, s4, s5⟩ := assignModel_ok_spec ha
          obtain ⟨t1, t2, t3, t4, t5, t6⟩ := ih mm _ _ hu
          refine ⟨t1.trans s1, t2.trans s2, t3.trans s3, t4.trans s4, ?_, ?_⟩
          · intro k
            subst s5
            constructor
            · intro hm
              rcases List.mem_append.mp hm with hm | hm
              · have hk : k = key := by simpa using hm
                subst hk
                exact ⟨List.mem_cons_self _ _, hkm, hki, hkt⟩
              · obtain ⟨hk1, hk2⟩ := (t5 k).mp hm
                exact ⟨List.mem_cons_of_mem _ hk1, hk2⟩
            · rintro ⟨hk1, hk2⟩
              rcases List.mem_cons.mp hk1 with hk | hk
              · subst hk
                exact List.mem_append.mpr (Or.inl (by simp))
              · exact List.mem_append.mpr (Or.inr ((t5 k).mpr ⟨hk, hk2⟩))
          · intro ev hev
            subst s5
            rcases List.mem_append.mp hev with hm | hm
            · have hk : ev = MEvent.assignEv key := by simpa using hm
              exact Or.inl ⟨key, hk⟩
            · exact t6 ev hm
    · subst h2
      cases hu : updateModelKeys idF typeF d
          (mergeMetaM m (omitKeys (dataMetaEntries d) READ_ONLY_META)).1 rest with
      | error msg =>
        rw [hu] at h
        exact Except.noConfusion h
      | ok q =>
        obtain ⟨m3, evs2⟩ := q
        rw [hu] at h
        cases h
        obtain ⟨⟨a1, a2, a3, a4⟩, acls⟩ :=
          mergeMetaM_spec (omitKeys (dataMetaEntries d) READ_ONLY_META) m
            (omitKeys_prop _ _)
        obtain ⟨t1, t2, t3, t4, t5, t6⟩ := ih _ _ _ hu
        refine ⟨t1.trans a1, t2.trans a2, t3.trans a3, t4.trans a4, ?_, ?_⟩
        · intro k
          constructor
          · intro hm
            rcases List.mem_append.mp hm with hm | hm
            · obtain ⟨k2, hk2, _⟩ := acls _ hm
              exact absurd hk2 (by simp)
            · obtain ⟨hk1, hk2⟩ := (t5 k).mp hm
              exact ⟨List.mem_cons_of_mem _ hk1, hk2⟩
          · rintro ⟨hk1, hk2⟩
            rcases List.mem_cons.mp hk1 with hk | hk
            · exact absurd hk hk2.1
            · exact List.mem_append.mpr (Or.inr ((t5 k).mpr ⟨hk, hk2⟩))
        · intro ev hev
          rcases List.mem_append.mp hev with hm | hm
          · exact Or.inr (acls ev hm)
          · exact t6 ev hm
    · obtain ⟨t1, t2, t3, t4, t5, t6⟩ := ih m m2 evs h
      have hidty : key = idF ∨ key = typeF := by
        by_cases hk1 : key = idF
        · exact Or.inl hk1
        · by_cases hk2 : key = typeF
          · exact Or.inr hk2
          · exact absurd ⟨h2, hk1, hk2⟩ h1
      refine ⟨t1, t2, t3, t4, ?_, t6⟩
      intro k
      rw [t5 k]
      constructor
      · rintro ⟨hk1, hk2⟩
        exact ⟨List.mem_cons_of_mem _ hk1, hk2⟩
      · rintro ⟨hk1, hk2⟩
        rcases List.mem_cons.mp hk1 with hk | hk
        · subst hk
          rcases hidty with hh | hh
          · exact absurd hh hk2.2.1
          · exact absurd hh hk2.2.2
        · exact ⟨hk, hk2⟩

/-- C5: assigning an entity-shaped value (a PureModel or an array whose
first element is one) to a declared non-reference field throws `NO_REFS`;
assigning it to an unknown field first upgrades that field to a
to-one-or-many reference definition with the model types derived from the
value, then stores the value. -/
theorem c5_assignModel_reference_handling :
    (∀ (m : MModel) (key : String) (v : AVal),
      alistFind m.mfields key = some RefDefField.noRef →
      shouldBeReference v = true →
      assignModel m key v = Except.error NO_REFS) ∧
    (∀ (m : MModel) (key : String) (v : AVal),
      alistFind m.mfields key = none →
      shouldBeReference v = true →
      key ≠ m.typeFieldName → key ≠ m.idFieldName →
      assignModel m key v = Except.ok
        ({ m with
            mfields := m.mfields ++ [(key, RefDefField.refDef
              { rkind := RKind.toOneOrMany, rmodels := derivedRefTypes v })]
            mvalues := alistSet m.mvalues key v },
          [MEvent.assignEv key])) := by
  constructor
  · intro m key v h1 h2
    simp [assignModel, h1, h2]
  · intro m key v h1 h2 h3 h4
    simp [assignModel, h1, h2, h3, h4]

/-- Witness for C5: a PureModel value written to a declared plain field. -/
theorem c5_witness :
    assignModel
        (MModel.mk (Val.vint 1) (Val.vstr "event") "id" "type"
          [("x", RefDefField.noRef)] [] [])
        "x" (AVal.pm (Val.vstr "person")) = Except.error NO_REFS :=
  c5_assignModel_reference_handling.1 _ "x" _ (by decide) rfl

/-- C7: a successful `updateModel` leaves the model's identifier and type
unchanged; its event trace is exactly one startAction/endAction pair around
the inner writes; the assigned keys are exactly the incoming keys other
than META_FIELD and the model's id/type field names; and no read-only meta
key (fields, id, type) is ever merged. -/
theorem c7_updateModel_preserves_identity (m : MModel) (d : List (String × AVal))
    (m2 : MModel) (tr : List MEvent)
    (h : updateModel m d = Except.ok (m2, tr)) :
    m2.idVal = m.idVal ∧ m2.typeVal = m.typeVal ∧
    ∃ inner : List MEvent,
      tr = MEvent.startEv :: inner ++ [MEvent.endEv] ∧
      MEvent.startEv ∉ inner ∧ MEvent.endEv ∉ inner ∧
      (∀ k, MEvent.assignEv k ∈ inner ↔
        (k ∈ d.map Prod.fst ∧ k ≠ META_FIELD ∧
          k ≠ m.idFieldName ∧ k ≠ m.typeFieldName)) ∧
      (∀ k, MEvent.setMetaEv k ∈ inner → k ∉ READ_ONLY_META) := by
  simp only [updateModel] at h
  obtain ⟨⟨a1, a2, a3, a4⟩, acls⟩ :=
    mergeMetaM_spec (omitKeys (dataMetaEntries d) READ_ONLY_META) m (omitKeys_prop _ _)
  cases hu : updateModelKeys m.idFieldName m.typeFieldName d
      (mergeMetaM m (omitKeys (dataMetaEntries d) READ_ONLY_META)).1 (d.map Prod.fst) with
  | error msg =>
    rw [hu] at h
    exact Except.noConfusion h
  | ok q =>
    obtain ⟨m3, evs⟩ := q
    rw [hu] at h
    cases h
    obtain ⟨t1, t2, t3, t4, t5, t6⟩ := updateModelKeys_spec _ _ d _ _ _ _ hu
    refine ⟨t1.trans a1, t2.trans a2,
      (mergeMetaM m (omitKeys (dataMetaEntries d) READ_ONLY_META)).2 ++ evs, rfl,
      ?_, ?_, ?_, ?_⟩
    · intro hmem
      rcases List.mem_append.mp hmem with hm | hm
      · obtain ⟨k, hk, _⟩ := acls _ hm
        exact MEvent.noConfusion hk
      · rcases t6 _ hm with ⟨k, hk⟩ | ⟨k, hk, _⟩
        · exact MEvent.noConfusion hk
        · exact MEvent.noConfusion hk
    · intro hmem
      rcases List.mem_append.mp hmem with hm | hm
      · obtain ⟨k, hk, _⟩ := acls _ hm
        exact MEvent.noConfusion hk
      · rcases t6 _ hm with ⟨k, hk⟩ | ⟨k, hk, _⟩
        · exact MEvent.noConfusion hk
        · exact MEvent.noConfusion hk
    · intro k
      constructor
      · intro hmem
        rcases List.mem_append.mp hmem with hm | hm
        · obtain ⟨k2, hk2, _⟩ := acls _ hm
          exact absurd hk2 (by simp)
        · exact (t5 k).mp hm
      · intro hk
        exact List.mem_append.mpr (Or.inr ((t5 k).mpr hk))
    · intro k hmem
      rcases List.mem_append.mp hmem with hm | hm
      · obtain ⟨k2, hk2, hk3⟩ := acls _ hm
        cases hk2
        exact hk3
      · rcases t6 _ hm with ⟨k2, hk2⟩ | ⟨k2, hk2, hk3⟩
        · exact MEvent.noConfusion hk2
        · cases hk2
          exact hk3

/-- Witness for C7: an update carrying the id field, a data field and a
meta object (with a read-only id entry) over a concrete model. -/
theorem c7_witness :
    updateModel
        (MModel.mk (Val.vint 1) (Val.vstr "event") "id" "type"
          [("name", RefDefField.noRef)] [] [])
        [("id", AVal.raw (Val.vint 99)), ("name", AVal.raw (Val.vstr "n")),
          (META_FIELD, AVal.raw (Val.vobj [("id", Val.vint 99), ("extra", Val.vint 7)]))] =
      Except.ok
        (MModel.mk (Val.vint 1) (Val.vstr "event") "id" "type"
          [("name", RefDefField.noRef)] [("name", AVal.raw (Val.vstr "n"))]
          [("extra", Val.vint 7)],
        [MEvent.startEv, MEvent.setMetaEv "extra", MEvent.assignEv "name",
          MEvent.setMetaEv "extra", MEvent.endEv]) ∧
    (MModel.mk (Val.vint 1) (Val.vstr "event") "id" "type"
        [("name", RefDefField.noRef)] [("name", AVal.raw (Val.vstr "n"))]
        [("extra", Val.vint 7)]).idVal = Val.vint 1 := by
  constructor
  · rfl
  · exact (c7_updateModel_preserves_identity
      (MModel.mk (Val.vint 1) (Val.vstr "event") "id" "type"
        [("name", RefDefField.noRef)] [] [])
      [("id", AVal.raw (Val.vint 99)), ("name", AVal.raw (Val.vstr "n")),
        (META_FIELD, AVal.raw (Val.vobj [("id", Val.vint 99), ("extra", Val.vint 7)]))]
      (MModel.mk (Val.vint 1) (Val.vstr "event") "id" "type"
        [("name", RefDefField.noRef)] [("name", AVal.raw (Val.vstr "n"))]
        [("extra", Val.vint 7)])
      [MEvent.startEv, MEvent.setMetaEv "extra", MEvent.assignEv "name",
        MEvent.setMetaEv "extra", MEvent.endEv] rfl).1


/-- C6: a server-reported error response is never written into the Cache
Store: the store is unchanged, a subsequent lookup of the same fingerprint
still misses, and the next fetch of that fingerprint issues the network
call again.  The general conjunct states the store invariant: writing an
error response changes no entry. -/
theorem c6_error_responses_not_cached :
    (∀ (c : CacheStore) (key key2 : String) (t : Nat) (r : NetResp),
      isErrorResponse r = true →
      saveCache c key t r = c ∧ getCache (saveCache c key t r) key2 = getCache c key2) ∧
    (∀ (c : CacheStore) (key : String) (t : Nat) (r : NetResp),
      isErrorResponse r = true → getCache c key = none →
      (fetchCacheFirst c key t r).store = c ∧
      (fetchCacheFirst c key t r).result = Except.error r.payload ∧
      getCache (fetchCacheFirst c key t r).store key = none ∧
      ∀ (t2 : Nat) (r2 : NetResp),
        (fetchCacheFirst (fetchCacheFirst c key t r).store key t2 r2).usedNetwork = true) := by
  have hsave : ∀ (c : CacheStore) (key : String) (t : Nat) (r : NetResp),
      isErrorResponse r = true → saveCache c key t r = c := by
    intro c key t r hr
    simp [saveCache, hr]
  constructor
  · intro c key key2 t r hr
    exact ⟨hsave c key t r hr, by rw [hsave c key t r hr]⟩
  · intro c key t r hr hmiss
    have hstore : (fetchCacheFirst c key t r).store = c := by
      simp [fetchCacheFirst, hmiss, hr]
    refine ⟨hstore, ?_, ?_, ?_⟩
    · simp [fetchCacheFirst, hmiss, hr]
    · rw [hstore]
      exact hmiss
    · intro t2 r2
      rw [hstore]
      simp [fetchCacheFirst, hmiss]
      split_ifs <;> rfl

/-- Witness for C6: a 500-status response against an empty store. -/
theorem c6_witness :
    saveCache [] "GET https://example.com/event/12345" 3
        (NetResp.mk 500 false Val.vnull) = [] ∧
    getCache (fetchCacheFirst [] "GET https://example.com/event/12345" 3
        (NetResp.mk 500 false Val.vnull)).store "GET https://example.com/event/12345" = none :=
  ⟨(c6_error_responses_not_cached.1 [] _ "k" 3 _ (by decide)).1,
   (c6_error_responses_not_cached.2 [] _ 3 _ (by decide) rfl).2.2.1⟩


lemma strToList_append (s t : String) : (s ++ t).toList = s.toList ++ t.toList := rfl

lemma strMk_toList (s : String) : String.mk s.toList = s := rfl

lemma toList_eq_nil_iff (s : String) : s.toList = [] ↔ s = "" := by
  constructor
  · intro h
    have := congrArg String.mk h
    simpa [strMk_toList] using this
  · intro h
    subst h
    rfl

lemma splitOnCharAux_ne_nil (c : Char) (l : List Char) : splitOnCharAux c l ≠ [] := by
  induction l with
  | nil => simp [splitOnCharAux]
  | cons x xs ih =>
    by_cases hx : x = c
    · simp [splitOnCharAux, hx]
    · cases hr : splitOnCharAux c xs with
      | nil => exact absurd hr ih
      | cons h t => simp [splitOnCharAux, hx, hr]

lemma splitOnCharAux_of_not_mem {c : Char} {l : List Char} (h : c ∉ l) :
    splitOnCharAux c l = [l] := by
  induction l with
  | nil => rfl
  | cons x xs ih =>
    have hx : ¬x = c := fun he => h (he ▸ List.mem_cons_self x xs)
    have hxs : c ∉ xs := fun hm => h (List.mem_cons_of_mem _ hm)
    simp [splitOnCharAux, hx, ih hxs]

lemma splitOnCharAux_append {c : Char} {p : List Char} (hp : c ∉ p) (m : List Char) :
    splitOnCharAux c (p ++ c :: m) = p :: splitOnCharAux c m := by
  induction p with
  | nil =>
    cases hr : splitOnCharAux c m with
    | nil => exact absurd hr (splitOnCharAux_ne_nil c m)
    | cons h t => simp [splitOnCharAux, hr]
  | cons x p ih =>
    have hx : ¬x = c := fun he => hp (he ▸ List.mem_cons_self x p)
    have hp2 : c ∉ p := fun hm => hp (List.mem_cons_of_mem _ hm)
    have hrec := ih hp2
    cases hr : splitOnCharAux c (p ++ c :: m) with
    | nil => exact absurd hr (splitOnCharAux_ne_nil c _)
    | cons h t =>
      rw [hr] at hrec
      rw [List.cons.injEq] at hrec
      simp only [List.cons_append, splitOnCharAux, if_neg hx, List.append_eq]
      rw [hr]
      simp [hrec.1, hrec.2]

lemma splitOnCharAux_join (c : Char) :
    ∀ (ps : List (List Char)), ps ≠ [] → (∀ p ∈ ps, c ∉ p) →
    splitOnCharAux c (joinWithChar c ps) = ps := by
  intro ps
  induction ps with
  | nil => intro h; exact absurd rfl h
  | cons p ps ih =>
    intro _ hmem
    cases ps with
    | nil =>
      simp only [joinWithChar]
      exact splitOnCharAux_of_not_mem (hmem p (List.mem_cons_self _ _))
    | cons q qs =>
      have h1 : joinWithChar c (p :: q :: qs) = p ++ c :: joinWithChar c (q :: qs) := rfl
      rw [h1, splitOnCharAux_append (hmem p (List.mem_cons_self _ _)),
        ih (by simp) (fun r hr => hmem r (List.mem_cons_of_mem _ hr))]

lemma mem_joinWithChar {x c : Char} :
    ∀ {L : List (List Char)}, x ∈ joinWithChar c L → x = c ∨ ∃ l ∈ L, x ∈ l := by
  intro L
  induction L with
  | nil => intro h; exact absurd h (List.not_mem_nil x)
  | cons p ps ih =>
    intro h
    cases ps with
    | nil => exact Or.inr ⟨p, List.mem_cons_self _ _, h⟩
    | cons q qs =>
      have h1 : joinWithChar c (p :: q :: qs) = p ++ c :: joinWithChar c (q :: qs) := rfl
      rw [h1] at h
      rcases List.mem_append.mp h with h2 | h2
      · exact Or.inr ⟨p, List.mem_cons_self _ _, h2⟩
      · rcases List.mem_cons.mp h2 with h3 | h3
        · exact Or.inl h3
        · rcases ih h3 with h4 | ⟨l, hl, hx⟩
          · exact Or.inl h4
          · exact Or.inr ⟨l, List.mem_cons_of_mem _ hl, hx⟩

lemma joinWithChar_ne_nil {c : Char} :
    ∀ {L : List (List Char)}, L ≠ [] → (∀ l ∈ L, l ≠ []) → joinWithChar c L ≠ [] := by
  intro L
  cases L with
  | nil => intro h; exact absurd rfl h
  | cons p ps =>
    intro _ hall
    cases ps with
    | nil => exact hall p (List.mem_cons_self _ _)
    | cons q qs =>
      have h1 : joinWithChar c (p :: q :: qs) = p ++ c :: joinWithChar c (q :: qs) := rfl
      rw [h1]
      simp

lemma toList_joinSep (c : Char) (sep : String) (hsep : sep.toList = [c]) :
    ∀ (l : List String), (joinSep sep l).toList = joinWithChar c (l.map String.toList) := by
  intro l
  induction l with
  | nil => rfl
  | cons p ps ih =>
    cases ps with
    | nil => rfl
    | cons q qs =>
      have h1 : joinSep sep (p :: q :: qs) = p ++ sep ++ joinSep sep (q :: qs) := rfl
      have h2 : joinWithChar c ((p :: q :: qs).map String.toList) =
          p.toList ++ c :: joinWithChar c ((q :: qs).map String.toList) := rfl
      rw [h1, h2, strToList_append, strToList_append, hsep, ih]
      simp

lemma splitFirstOnChar_append {c : Char} :
    ∀ {k : List Char}, c ∉ k → ∀ (v : List Char),
    splitFirstOnChar c (k ++ c :: v) = (k, v) := by
  intro k
  induction k with
  | nil =>
    intro _ v
    simp [splitFirstOnChar]
  | cons x xs ih =>
    intro hk v
    have hx : ¬x = c := fun he => hk (he ▸ List.mem_cons_self x xs)
    have hxs : c ∉ xs := fun hm => hk (List.mem_cons_of_mem _ hm)
    simp [splitFirstOnChar, hx, ih hxs v]

lemma splitFirstOnChar_fst_not_mem (c : Char) :
    ∀ (l : List Char), c ∉ (splitFirstOnChar c l).1 := by
  intro l
  induction l with
  | nil => simp [splitFirstOnChar]
  | cons x xs ih =>
    by_cases hx : x = c
    · simp [splitFirstOnChar, hx]
    · simp only [splitFirstOnChar, if_neg hx]
      intro hmem
      rcases List.mem_cons.mp hmem with h | h
      · exact hx h.symm
      · exact ih h

lemma splitFirstOnChar_sub (c : Char) :
    ∀ (l : List Char) (x : Char),
      (x ∈ (splitFirstOnChar c l).1 → x ∈ l) ∧ (x ∈ (splitFirstOnChar c l).2 → x ∈ l) := by
  intro l
  induction l with
  | nil => intro x; simp [splitFirstOnChar]
  | cons y ys ih =>
    intro x
    by_cases hy : y = c
    · constructor
      · intro h
        simp [splitFirstOnChar, hy] at h
      · intro h
        simp only [splitFirstOnChar, if_pos hy] at h
        exact List.mem_cons_of_mem _ h
    · constructor
      · intro h
        simp only [splitFirstOnChar, if_neg hy] at h
        rcases List.mem_cons.mp h with h2 | h2
        · exact h2 ▸ List.mem_cons_self _ _
        · exact List.mem_cons_of_mem _ ((ih x).1 h2)
      · intro h
        simp only [splitFirstOnChar, if_neg hy] at h
        exact List.mem_cons_of_mem _ ((ih x).2 h)

lemma charListLe_not_lex : ∀ u v : List Char,
    charListLe u v = true ↔ ¬ List.Lex (· < ·) v u := by
  intro u
  induction u with
  | nil =>
    intro v
    exact iff_of_true rfl (List.Lex.not_nil_right _ _)
  | cons x xs ih =>
    intro v
    cases v with
    | nil =>
      refine iff_of_false (by simp [charListLe]) ?_
      intro h
      exact h List.Lex.nil
    | cons y ys =>
      have hlex : List.Lex (· < ·) (y :: ys) (x :: xs) ↔
          y < x ∨ (y = x ∧ List.Lex (· < ·) ys xs) := by
        constructor
        · intro h
          cases h with
          | cons h2 => exact Or.inr ⟨rfl, h2⟩
          | rel h2 => exact Or.inl h2
        · intro h
          rcases h with h | ⟨h1, h2⟩
          · exact List.Lex.rel h
          · subst h1
            exact List.Lex.cons h2
      rcases lt_trichotomy x y with h1 | h1 | h1
      · have h2 : ¬y < x := lt_asymm h1
        have h3 : ¬(y = x) := fun he => absurd (he ▸ h1) (lt_irrefl _)
        simp [charListLe, h1, hlex, h2, h3]
      · subst h1
        simp [charListLe, lt_irrefl, hlex, ih ys]
      · simp [charListLe, h1, lt_asymm h1, hlex]

lemma keyLe_iff_le (a b : String × String) : keyLe a b ↔ a.1 ≤ b.1 := by
  rw [keyLe, charListLe_not_lex, String.le_iff_toList_le]
  have h : (b.1.toList < a.1.toList) = List.Lex (· < ·) b.1.toList a.1.toList := rfl
  rw [← h]
  exact not_lt

instance : IsTotal (String × String) keyLe :=
  ⟨fun a b => by
    rw [keyLe_iff_le, keyLe_iff_le]
    exact le_total a.1 b.1⟩

instance : IsTrans (String × String) keyLe :=
  ⟨fun a b c h1 h2 => (keyLe_iff_le a c).mpr
    (le_trans ((keyLe_iff_le a b).mp h1) ((keyLe_iff_le b c).mp h2))⟩

instance : IsAntisymm (String × String) (fun a b => keyLe a b ∧ a.1 ≠ b.1) :=
  ⟨fun a b h1 h2 =>
    absurd (le_antisymm ((keyLe_iff_le a b).mp h1.1) ((keyLe_iff_le b a).mp h2.1)) h1.2⟩

lemma sortPairs_sorted (l : List (String × String)) :
    List.Sorted keyLe (sortPairs l) :=
  List.sorted_insertionSort _ l

lemma sortPairs_perm (l : List (String × String)) : (sortPairs l).Perm l :=
  List.perm_insertionSort _ l

lemma strMk_injective : Function.Injective String.mk := by
  intro a b h
  exact congrArg String.data h

lemma sorted_strict_of_nodup {l : List (String × String)}
    (hs : List.Sorted keyLe l)
    (hnd : (l.map Prod.fst).Nodup) :
    List.Sorted (fun a b => keyLe a b ∧ a.1 ≠ b.1) l := by
  have hne : List.Pairwise (fun a b : String × String => a.1 ≠ b.1) l :=
    List.pairwise_map.mp hnd
  exact hs.and hne

lemma sortPairs_eq_of_perm {l1 l2 : List (String × String)} (hp : l1.Perm l2)
    (hnd : (l1.map Prod.fst).Nodup) :
    sortPairs l1 = sortPairs l2 := by
  have hperm : (sortPairs l1).Perm (sortPairs l2) :=
    (sortPairs_perm l1).trans (hp.trans (sortPairs_perm l2).symm)
  have hnd1 : ((sortPairs l1).map Prod.fst).Nodup :=
    (((sortPairs_perm l1).map Prod.fst).nodup_iff).mpr hnd
  have hnd2 : ((sortPairs l2).map Prod.fst).Nodup :=
    ((hperm.map Prod.fst).nodup_iff).mp hnd1
  exact List.eq_of_perm_of_sorted hperm
    (sorted_strict_of_nodup (sortPairs_sorted l1) hnd1)
    (sorted_strict_of_nodup (sortPairs_sorted l2) hnd2)

lemma piece_toList (k v : String) :
    (k ++ "=" ++ v).toList = k.toList ++ '=' :: v.toList := by
  rw [strToList_append, strToList_append]
  simp

lemma parsePiece_render {k v : String} (hk : '=' ∉ k.toList) :
    parsePieceL (k ++ "=" ++ v).toList = (k, v) := by
  rw [parsePieceL, piece_toList, splitFirstOnChar_append hk]
  rfl

lemma parse_render (ps : List (String × String)) (hne : ps ≠ [])
    (hamp : ∀ kv ∈ ps, '&' ∉ kv.1.toList ∧ '&' ∉ kv.2.toList)
    (heq : ∀ kv ∈ ps, '=' ∉ kv.1.toList) :
    parseQueryPairs (renderPairs ps) = ps := by
  have hpieces : ∀ l ∈ (ps.map (fun kv => kv.1 ++ "=" ++ kv.2)).map String.toList,
      '&' ∉ l := by
    intro l hl
    simp only [List.map_map, List.mem_map, Function.comp] at hl
    obtain ⟨kv, hkv, hl2⟩ := hl
    subst hl2
    rw [piece_toList]
    intro hmem
    rcases List.mem_append.mp hmem with h | h
    · exact (hamp kv hkv).1 h
    · rcases List.mem_cons.mp h with h2 | h2
      · exact absurd h2 (by decide)
      · exact (hamp kv hkv).2 h2
  have h0 : (renderPairs ps).toList =
      joinWithChar '&' ((ps.map (fun kv => kv.1 ++ "=" ++ kv.2)).map String.toList) :=
    toList_joinSep '&' "&" rfl _
  rw [parseQueryPairs, h0, splitOnCharAux_join '&' _ (by simp [hne]) hpieces]
  simp only [List.map_map]
  refine (List.map_congr_left ?_).trans (List.map_id ps)
  intro kv hkv
  exact parsePiece_render (heq kv hkv)

lemma buildUrl_reduce (cfg : NetConfig) (url : String) (o : QueryParams)
    (hs : cfg.sortParams = true) (he : cfg.encodeQueryString = false)
    (hq : '?' ∉ url.toList)
    (hps : ∀ p ∈ allParams cfg o, '&' ∉ p.toList ∧ '?' ∉ p.toList ∧ p ≠ "")
    (hne : allParams cfg o ≠ []) :
    buildUrl cfg url o true =
      url ++ "?" ++
        renderPairs (sortPairs ((allParams cfg o).map (fun p => parsePieceL p.toList))) := by
  have hprefix : prefixUrl cfg url true = url := by simp [prefixUrl]
  have hnochar : hasChar url '?' = false := by
    cases hh : hasChar url '?' with
    | false => rfl
    | true =>
      exfalso
      simp only [hasChar, List.any_eq_true, beq_iff_eq] at hh
      obtain ⟨x, hx1, hx2⟩ := hh
      exact hq (hx2 ▸ hx1)
  have happend : appendParams url (allParams cfg o) =
      url ++ "?" ++ joinSep "&" (allParams cfg o) := by
    have hie : (allParams cfg o).isEmpty = false := by
      cases hl : allParams cfg o with
      | nil => exact absurd hl hne
      | cons a as => rfl
    simp [appendParams, hie, hnochar]
  have hqlist : (url ++ "?" ++ joinSep "&" (allParams cfg o)).toList =
      url.toList ++ '?' :: (joinSep "&" (allParams cfg o)).toList := by
    rw [strToList_append, strToList_append]
    simp
  have hqfree : '?' ∉ (joinSep "&" (allParams cfg o)).toList := by
    rw [toList_joinSep '&' "&" rfl]
    intro hmem
    rcases mem_joinWithChar hmem with h | ⟨l, hl, hx⟩
    · exact absurd h (by decide)
    · obtain ⟨p, hp, hl2⟩ := List.mem_map.mp hl
      subst hl2
      exact (hps p hp).2.1 hx
  have hqne : joinSep "&" (allParams cfg o) ≠ "" := by
    intro hemp
    have h0 : (joinSep "&" (allParams cfg o)).toList = [] := by rw [hemp]; rfl
    rw [toList_joinSep '&' "&" rfl] at h0
    refine joinWithChar_ne_nil (c := '&') (by simp [hne]) ?_ h0
    intro l hl
    obtain ⟨p, hp, hl2⟩ := List.mem_map.mp hl
    subst hl2
    intro hl0
    exact (hps p hp).2.2 ((toList_eq_nil_iff p).mp hl0)
  have hsplit : splitOnChar '?' (url ++ "?" ++ joinSep "&" (allParams cfg o)) =
      [url, joinSep "&" (allParams cfg o)] := by
    rw [splitOnChar, hqlist, splitOnCharAux_append hq, splitOnCharAux_of_not_mem hqfree]
    simp [strMk_toList]
  have hparse : parseQueryPairs (joinSep "&" (allParams cfg o)) =
      (allParams cfg o).map (fun p => parsePieceL p.toList) := by
    have hamp2 : ∀ l ∈ (allParams cfg o).map String.toList, '&' ∉ l := by
      intro l hl
      obtain ⟨p, hp, hl2⟩ := List.mem_map.mp hl
      subst hl2
      exact (hps p hp).1
    rw [parseQueryPairs, toList_joinSep '&' "&" rfl,
      splitOnCharAux_join '&' _ (by simp [hne]) hamp2]
    simp [List.map_map, Function.comp]
  have hb : buildUrl cfg url o true = sortUrlParams cfg (appendParams url (allParams cfg o)) := by
    simp [buildUrl, he, hs, hprefix]
  rw [hb, happend]
  unfold sortUrlParams
  rw [hsplit]
  simp [hqne, hparse]

lemma parametrizeObj_flat (cfg : NetConfig) :
    ∀ (f : List (String × PVal)), (∀ kv ∈ f, isPStr kv.2 = true) →
    parametrizeObj cfg "" f = f.map (fun kv => (kv.1, pstrVal kv.2)) := by
  intro f
  induction f with
  | nil => intro _; rfl
  | cons kv rest ih =>
    intro h
    obtain ⟨k, v⟩ := kv
    have hv : isPStr v = true := h (k, v) (List.mem_cons_self _ _)
    cases v with
    | pstr s =>
      have h1 : parametrizeObj cfg "" ((k, PVal.pstr s) :: rest) =
          parametrizeVal cfg "" k (PVal.pstr s) ++ parametrizeObj cfg "" rest := rfl
      rw [h1, ih (fun kv2 hkv2 => h kv2 (List.mem_cons_of_mem _ hkv2))]
      rfl
    | parr xs => exact absurd hv (by simp [isPStr])
    | pobj fs => exact absurd hv (by simp [isPStr])

/-- C8 counterexample: with sort-params enabled, two queryParams objects
carrying the same custom key/value pairs in different orders produce
different URLs, because the stable key sort preserves the relative order of
parameters sharing a key. -/
theorem c8_counterexample :
    (QueryParams.mk [] none none []
        [RawParam.rkv "a" "1", RawParam.rkv "a" "2"]).custom.Perm
      (QueryParams.mk [] none none []
        [RawParam.rkv "a" "2", RawParam.rkv "a" "1"]).custom ∧
    buildUrl (NetConfig.mk ParamArrayTypeM.commaSeparated true false "") "event"
        (QueryParams.mk [] none none [] [RawParam.rkv "a" "1", RawParam.rkv "a" "2"]) true ≠
      buildUrl (NetConfig.mk ParamArrayTypeM.commaSeparated true false "") "event"
        (QueryParams.mk [] none none [] [RawParam.rkv "a" "2", RawParam.rkv "a" "1"]) true := by
  constructor
  · exact List.Perm.swap _ _ _
  · decide

/-- C8 amended: with sort-params enabled, `buildUrl` emits the query
parameters stably sorted by parameter key, and two queryParams objects
whose filter objects hold the same key/value pairs in different orders
produce identical URL strings provided no two emitted parameters share a
parsed key (with duplicate keys, equal-key parameters keep their original
relative order, as the counterexample shows). -/
theorem c8_sorted_params_normalization (cfg : NetConfig) (url : String)
    (o : QueryParams) (f2 : List (String × PVal))
    (hs : cfg.sortParams = true) (he : cfg.encodeQueryString = false)
    (hq : '?' ∉ url.toList)
    (hflat : ∀ kv ∈ o.filter, isPStr kv.2 = true)
    (hpermf : o.filter.Perm f2)
    (hps : ∀ p ∈ allParams cfg o, '&' ∉ p.toList ∧ '?' ∉ p.toList ∧ p ≠ "")
    (hne : allParams cfg o ≠ [])
    (hnodup : ((allParams cfg o).map (fun p => (splitFirstOnChar '=' p.toList).1)).Nodup) :
    buildUrl cfg url o true =
      buildUrl cfg url (QueryParams.mk f2 o.sort o.includes o.fields o.custom) true ∧
    (∀ a b : String × String, keyLe a b ↔ a.1 ≤ b.1) ∧
    ∃ q : String, buildUrl cfg url o true = url ++ "?" ++ q ∧
      List.Sorted keyLe (parseQueryPairs q) := by
  have hflat2 : ∀ kv ∈ f2, isPStr kv.2 = true :=
    fun kv hkv => hflat kv (hpermf.mem_iff.mpr hkv)
  have hpfilters : (prepareFilters cfg o.filter).Perm (prepareFilters cfg f2) := by
    rw [prepareFilters, prepareFilters, parametrizeObj_flat cfg o.filter hflat,
      parametrizeObj_flat cfg f2 hflat2]
    exact ((hpermf.map _).map _)
  have hpall : (allParams cfg o).Perm
      (allParams cfg (QueryParams.mk f2 o.sort o.includes o.fields o.custom)) := by
    simp only [allParams]
    exact (((hpfilters.append_right _).append_right _).append_right _).append_right _
  have hps2 : ∀ p ∈ allParams cfg (QueryParams.mk f2 o.sort o.includes o.fields o.custom),
      '&' ∉ p.toList ∧ '?' ∉ p.toList ∧ p ≠ "" :=
    fun p hp => hps p (hpall.mem_iff.mpr hp)
  have hne2 : allParams cfg (QueryParams.mk f2 o.sort o.includes o.fields o.custom) ≠ [] := by
    intro h0
    exact hne (List.eq_nil_of_length_eq_zero (by rw [hpall.length_eq, h0]; rfl))
  have hr1 := buildUrl_reduce cfg url o hs he hq hps hne
  have hr2 := buildUrl_reduce cfg url
    (QueryParams.mk f2 o.sort o.includes o.fields o.custom) hs he hq hps2 hne2
  have hpairsnd : (((allParams cfg o).map (fun p => parsePieceL p.toList)).map
      Prod.fst).Nodup := by
    have h1 : ((allParams cfg o).map (fun p => parsePieceL p.toList)).map Prod.fst =
        ((allParams cfg o).map (fun p => (splitFirstOnChar '=' p.toList).1)).map
          String.mk := by
      simp [List.map_map, Function.comp, parsePieceL]
    rw [h1]
    exact hnodup.map strMk_injective
  have hsorteq : sortPairs ((allParams cfg o).map (fun p => parsePieceL p.toList)) =
      sortPairs ((allParams cfg
        (QueryParams.mk f2 o.sort o.includes o.fields o.custom)).map
          (fun p => parsePieceL p.toList)) :=
    sortPairs_eq_of_perm (hpall.map _) hpairsnd
  refine ⟨?_, keyLe_iff_le, ?_⟩
  · rw [hr1, hr2, hsorteq]
  · refine ⟨renderPairs (sortPairs ((allParams cfg o).map (fun p => parsePieceL p.toList))),
      hr1, ?_⟩
    have hmemsort : ∀ kv ∈ sortPairs ((allParams cfg o).map (fun p => parsePieceL p.toList)),
        ∃ p ∈ allParams cfg o, kv = parsePieceL p.toList := by
      intro kv hkv
      have hkv2 := (sortPairs_perm _).mem_iff.mp hkv
      obtain ⟨p, hp, hkv3⟩ := List.mem_map.mp hkv2
      exact ⟨p, hp, hkv3.symm⟩
    have hnesort : sortPairs ((allParams cfg o).map (fun p => parsePieceL p.toList)) ≠ [] := by
      intro h0
      have hlen := (sortPairs_perm ((allParams cfg o).map (fun p => parsePieceL p.toList))).length_eq
      rw [h0] at hlen
      have : allParams cfg o = [] := by
        have := hlen.symm
        simp at this
        exact this
      exact hne this
    rw [parse_render _ hnesort ?amp ?eqf]
    · exact sortPairs_sorted _
    case amp =>
      intro kv hkv
      obtain ⟨p, hp, hkv2⟩ := hmemsort kv hkv
      subst hkv2
      constructor
      · intro hmem
        exact (hps p hp).1 (((splitFirstOnChar_sub '=' p.toList '&').1) hmem)
      · intro hmem
        exact (hps p hp).1 (((splitFirstOnChar_sub '=' p.toList '&').2) hmem)
    case eqf =>
      intro kv hkv
      obtain ⟨p, hp, hkv2⟩ := hmemsort kv hkv
      subst hkv2
      exact splitFirstOnChar_fst_not_mem '=' p.toList

/-- Witness for C8 (amended): two flat filter objects with the same pairs
in swapped order normalize to the same sorted URL. -/
theorem c8_witness :
    buildUrl (NetConfig.mk ParamArrayTypeM.commaSeparated true false "") "event"
        (QueryParams.mk [("b", PVal.pstr "2"), ("a", PVal.pstr "1")] none none [] []) true =
      buildUrl (NetConfig.mk ParamArrayTypeM.commaSeparated true false "") "event"
        (QueryParams.mk [("a", PVal.pstr "1"), ("b", PVal.pstr "2")] none none [] []) true ∧
    (∀ a b : String × String, keyLe a b ↔ a.1 ≤ b.1) ∧
    ∃ q : String,
      buildUrl (NetConfig.mk ParamArrayTypeM.commaSeparated true false "") "event"
          (QueryParams.mk [("b", PVal.pstr "2"), ("a", PVal.pstr "1")] none none [] []) true =
        "event" ++ "?" ++ q ∧
      List.Sorted keyLe (parseQueryPairs q) :=
  c8_sorted_params_normalization
    (NetConfig.mk ParamArrayTypeM.commaSeparated true false "") "event"
    (QueryParams.mk [("b", PVal.pstr "2"), ("a", PVal.pstr "1")] none none [] [])
    [("a", PVal.pstr "1"), ("b", PVal.pstr "2")]
    rfl rfl (by decide) (by decide) (List.Perm.swap _ _ _) (by decide) (by decide) (by decide)


end Datx
